import Mathlib

/-!
Verification of the ltntstools nic-monitor core against its design notes.

This file gives a shallow embedding of the two source files of the
repository, src/histogram.h and src/nic_monitor_di.c, and proves (or
refutes) the numbered behavioural claims about them.

Modelling conventions:
* C machine integers are embedded as Nat (unsigned) or Int (signed), with
  explicit reductions modulo 2^32 / 2^64 at the points where the C code
  performs a narrowing or signed-to-unsigned conversion.
* gettimeofday is modelled by passing the current wallclock time as an
  extra argument of type Timeval.
* The bucket array of a histogram is modelled as a total function
  Nat -> Nat from bucket index to counter, so that the out-of-bounds
  write that the C code can perform (see claim C2) is representable.
* Functions of the repository that are declared in nic_monitor.h but whose
  bodies are not part of the two source files (the hash_index_* family and
  network_addr_compare) are modelled from the spec; their doc comments say
  so explicitly.
-/

/-- C struct timeval: tv_sec and tv_usec as signed machine integers. -/
structure Timeval where
  sec : Int
  usec : Int
deriving DecidableEq, Repr

/-- Total microsecond value of a timeval, used to state theorems. -/
def Timeval.us (t : Timeval) : Int := t.sec * 1000000 + t.usec

/-- Conversion of a signed C value to uint32_t: reduction modulo 2^32. -/
def cUInt32 (v : Int) : Nat := (v % 4294967296).toNat

/-- Conversion of a wider signed C value to int (32-bit two-complement wrap). -/
def cInt32 (v : Int) : Int := (v + 2147483648) % 4294967296 - 2147483648

/-- Conversion of a signed C int value to uint64_t (sign extension then wrap). -/
def cUInt64 (v : Int) : Nat := (v % 18446744073709551616).toNat

/-- Unsigned 64-bit subtraction a - b as C computes it (wraps modulo 2^64). -/
def u64sub (a b : Nat) : Nat := (a + 18446744073709551616 - b) % 18446744073709551616

/-- Pointwise update of a bucket-counter array at one index. -/
def updFn (f : Nat → Nat) (i v : Nat) : Nat → Nat := fun j => if j = i then v else f j

/-- Pointwise update of a bucket lastUpdate array at one index. -/
def updFnT (f : Nat → Timeval) (i : Nat) (v : Timeval) : Nat → Timeval :=
  fun j => if j = i then v else f j

/-- struct ltn_histogram_s together with the per-bucket data of
struct ltn_histogram_bucket_s (count and lastUpdate, split in two maps). -/
structure Histogram where
  name : String
  minValMs : Nat
  maxValMs : Nat
  bucketMissCount : Nat
  bucketCount : Nat
  buckets : Nat → Nat
  bucketLast : Nat → Timeval
  intervalLast : Timeval
  cumulativeMs : Nat
  cumulativeLast : Timeval

/-- ltn_histogram_bucket: offset of the bucket for value ms from the start of
the bucket array.  The C parameter ms is a uint32_t; the offset is computed
in 64-bit pointer arithmetic, hence the wrapping subtraction. -/
def ltn_histogram_bucket_index (ctx : Histogram) (ms : Nat) : Nat :=
  u64sub (ms % 4294967296) (ctx.minValMs % 18446744073709551616)

/-- ltn_histogram_timeval_to_ms: (tv_sec * 1000) + (tv_usec / 1000), computed
in long arithmetic; C division truncates toward zero. -/
def ltn_histogram_timeval_to_ms (tv : Timeval) : Int := tv.sec * 1000 + tv.usec.tdiv 1000

/-- ltn_histogram_timeval_subtract.  The C function first normalizes y in
place (modelled by the local values y1, y2), then returns x - y componentwise
and reports whether the difference is negative. -/
def ltn_histogram_timeval_subtract (x y : Timeval) : Timeval × Bool :=
  let y1 : Timeval :=
    if x.usec < y.usec then
      let nsec : Int := (y.usec - x.usec).tdiv 1000000 + 1
      { usec := y.usec - 1000000 * nsec, sec := y.sec + nsec }
    else y
  let y2 : Timeval :=
    if x.usec - y1.usec > 1000000 then
      let nsec : Int := (x.usec - y1.usec).tdiv 1000000
      { usec := y1.usec + 1000000 * nsec, sec := y1.sec - nsec }
    else y1
  ({ sec := x.sec - y2.sec, usec := x.usec - y2.usec }, decide (x.sec < y2.sec))

/-- ltn_histogram_reset: memset zeroes exactly bucketCount buckets, then
refreshes intervalLast and clears bucketMissCount and cumulativeMs. -/
def ltn_histogram_reset (ctx : Histogram) (now : Timeval) : Histogram :=
  { ctx with
      buckets := fun i => if i < ctx.bucketCount then 0 else ctx.buckets i
      bucketLast := fun i => if i < ctx.bucketCount then { sec := 0, usec := 0 } else ctx.bucketLast i
      intervalLast := now
      bucketMissCount := 0
      cumulativeMs := 0 }

/-- ltn_histogram_alloc.  calloc gives a zeroed context; failure of calloc
itself is not modelled (the claims all assume allocation succeeds).  The
name argument is a nullable C string.  bucketCount is a uint32_t, hence the
reduction modulo 2^32 of the uint64 difference. -/
def ltn_histogram_alloc (name : Option String) (minValMs maxValMs : Nat) (now : Timeval) :
    Option Histogram :=
  if minValMs = maxValMs then none
  else if maxValMs < minValMs then none
  else if maxValMs = 0 then none
  else
    match name with
    | none => none
    | some n =>
      some {
        name := n
        minValMs := minValMs
        maxValMs := maxValMs
        bucketMissCount := 0
        bucketCount := (maxValMs - minValMs) % 4294967296
        buckets := fun _ => 0
        bucketLast := fun _ => { sec := 0, usec := 0 }
        intervalLast := now
        cumulativeMs := 0
        cumulativeLast := { sec := 0, usec := 0 } }

/-- ltn_histogram_alloc_video_defaults: range 0 .. 16 * 1000. -/
def ltn_histogram_alloc_video_defaults (name : Option String) (now : Timeval) :
    Option Histogram :=
  ltn_histogram_alloc name 0 (16 * 1000) now

/-- ltn_histogram_interval_update.  Computes the delta to intervalLast in
milliseconds (truncated into a uint32_t), stores intervalLast := now, then
either counts a bucket miss (returning -1) or bumps the bucket for the
delta.  The returned delta goes through the int return type. -/
def ltn_histogram_interval_update (ctx : Histogram) (now : Timeval) : Histogram × Int :=
  let r := (ltn_histogram_timeval_subtract now ctx.intervalLast).1
  let diffMs : Nat := cUInt32 (ltn_histogram_timeval_to_ms r)
  let ctx1 := { ctx with intervalLast := now }
  if diffMs < ctx1.minValMs ∨ diffMs > ctx1.maxValMs then
    ({ ctx1 with bucketMissCount := ctx1.bucketMissCount + 1 }, -1)
  else
    let idx := ltn_histogram_bucket_index ctx1 diffMs
    ({ ctx1 with
        buckets := updFn ctx1.buckets idx (ctx1.buckets idx + 1)
        bucketLast := updFnT ctx1.bucketLast idx now },
      cInt32 (diffMs : Int))

/-- ltn_histogram_cumulative_initialize (renamed: see file header): clears
cumulativeMs only. -/
def ltn_histogram_cumulative_initialise (ctx : Histogram) : Histogram :=
  { ctx with cumulativeMs := 0 }

/-- ltn_histogram_cumulative_begin: stamps cumulativeLast. -/
def ltn_histogram_cumulative_begin (ctx : Histogram) (now : Timeval) : Histogram :=
  { ctx with cumulativeLast := now }

/-- ltn_histogram_cumulative_end: adds the delta to cumulativeLast (as a
uint64 converted from the int millisecond value) onto cumulativeMs. -/
def ltn_histogram_cumulative_end (ctx : Histogram) (now : Timeval) : Histogram × Nat :=
  let r := (ltn_histogram_timeval_subtract now ctx.cumulativeLast).1
  let val : Nat := cUInt64 (cInt32 (ltn_histogram_timeval_to_ms r))
  ({ ctx with cumulativeMs := (ctx.cumulativeMs + val) % 18446744073709551616 }, val)

/-- ltn_histogram_cumulative_finalize: treats cumulativeMs as one
observation, with the same range test as ltn_histogram_interval_update;
cumulativeMs itself is only read.  The bucket call truncates cumulativeMs
to the uint32_t ms parameter. -/
def ltn_histogram_cumulative_finalize (ctx : Histogram) (now : Timeval) : Histogram × Nat :=
  if ctx.cumulativeMs < ctx.minValMs ∨ ctx.cumulativeMs > ctx.maxValMs then
    ({ ctx with bucketMissCount := ctx.bucketMissCount + 1 }, ctx.cumulativeMs)
  else
    let idx := ltn_histogram_bucket_index ctx ctx.cumulativeMs
    ({ ctx with
        buckets := updFn ctx.buckets idx (ctx.buckets idx + 1)
        bucketLast := updFnT ctx.bucketLast idx now },
      ctx.cumulativeMs)

/-! Histogram support lemmas -/

/-- Characterization of ltn_histogram_timeval_subtract on well-formed
timevals: the result has usec in [0, 1000000) and the total microsecond
value is the exact difference. -/
theorem tv_sub_spec (x y : Timeval) (hx0 : 0 ≤ x.usec) (hx1 : x.usec < 1000000)
    (hy0 : 0 ≤ y.usec) (hy1 : y.usec < 1000000) :
    0 ≤ ((ltn_histogram_timeval_subtract x y).1).usec ∧
    ((ltn_histogram_timeval_subtract x y).1).usec < 1000000 ∧
    ((ltn_histogram_timeval_subtract x y).1).us = x.us - y.us := by
  simp only [ltn_histogram_timeval_subtract, Timeval.us]
  by_cases h1 : x.usec < y.usec
  · rw [if_pos h1, Int.tdiv_eq_zero_of_lt (by omega) (by omega)]
    dsimp only
    rw [if_neg (by omega)]
    dsimp only
    exact ⟨by omega, by omega, by ring⟩
  · rw [if_neg h1, if_neg (by omega)]
    exact ⟨by omega, by omega, by ring⟩

/-- The concrete histogram produced by ltn_histogram_alloc_video_defaults at
time zero; the other histogram claims evaluate the operations on it. -/
def histVideo : Histogram := {
  name := "IAT Intervals"
  minValMs := 0
  maxValMs := 16 * 1000
  bucketMissCount := 0
  bucketCount := (16 * 1000 - 0) % 4294967296
  buckets := fun _ => 0
  bucketLast := fun _ => { sec := 0, usec := 0 }
  intervalLast := { sec := 0, usec := 0 }
  cumulativeMs := 0
  cumulativeLast := { sec := 0, usec := 0 } }

/-- C2: the source checks diffMs > maxValMs rather than diffMs >= maxValMs,
so an observation of exactly maxValMs (16000 on the video preset) is not
counted in bucketMissCount; instead the bucket at index bucketCount — one
past the logical end of the bucket array — is incremented, in both
ltn_histogram_interval_update and ltn_histogram_cumulative_finalize.  This
evaluates the code at that failing input. -/
theorem C2_histogram_upper_bound_code_bug :
    ltn_histogram_alloc_video_defaults (some "IAT Intervals") { sec := 0, usec := 0 } =
      some histVideo ∧
    histVideo.bucketCount = 16000 ∧
    (ltn_histogram_interval_update histVideo { sec := 16, usec := 0 }).1.bucketMissCount = 0 ∧
    (ltn_histogram_interval_update histVideo { sec := 16, usec := 0 }).1.buckets 16000 = 1 ∧
    (ltn_histogram_cumulative_finalize { histVideo with cumulativeMs := 16000 }
        { sec := 0, usec := 0 }).1.bucketMissCount = 0 ∧
    (ltn_histogram_cumulative_finalize { histVideo with cumulativeMs := 16000 }
        { sec := 0, usec := 0 }).1.buckets 16000 = 1 :=
  ⟨rfl, by decide, by decide, by decide, by decide, by decide⟩

/-- C7 counterexample: on the video-preset histogram whose intervalLast is
at 20 s, an update at 10 s (a negative interval) increments bucketMissCount
and leaves buckets[0] untouched, contradicting the claim that a negative
interval is treated as an observation of 0 ms. -/
theorem C7_counterexample :
    (ltn_histogram_interval_update { histVideo with intervalLast := { sec := 20, usec := 0 } }
        { sec := 10, usec := 0 }).1.buckets 0 = 0 ∧
    (ltn_histogram_interval_update { histVideo with intervalLast := { sec := 20, usec := 0 } }
        { sec := 10, usec := 0 }).1.bucketMissCount = 1 := by
  refine ⟨by decide, by decide⟩

/-- C7 amended: when ltn_histogram_interval_update runs at a time earlier
than the stored intervalLast, the negative millisecond delta is converted
to uint32_t, producing a huge value above maxValMs; bucketMissCount is
incremented, no bucket (in particular not buckets[0]) changes, and -1 is
returned.  Hypotheses: well-formed tv_usec fields, a clock step back of at
most 1000 seconds, and maxValMs at most 4*10^9 (the video preset is 16000). -/
theorem C7_amended (h : Histogram) (now : Timeval)
    (hn0 : 0 ≤ now.usec) (hn1 : now.usec < 1000000)
    (hl0 : 0 ≤ h.intervalLast.usec) (hl1 : h.intervalLast.usec < 1000000)
    (hneg : now.us < h.intervalLast.us)
    (hbound : h.intervalLast.us - now.us ≤ 1000000000)
    (hmax : h.maxValMs ≤ 4000000000) :
    ltn_histogram_interval_update h now =
      ({ h with intervalLast := now, bucketMissCount := h.bucketMissCount + 1 }, -1) := by
  obtain ⟨hru0, hru1, hrus⟩ := tv_sub_spec now h.intervalLast hn0 hn1 hl0 hl1
  have hms : ltn_histogram_timeval_to_ms ((ltn_histogram_timeval_subtract now h.intervalLast).1)
      = ((ltn_histogram_timeval_subtract now h.intervalLast).1).sec * 1000 +
        ((ltn_histogram_timeval_subtract now h.intervalLast).1).usec / 1000 := by
    unfold ltn_histogram_timeval_to_ms
    rw [Int.tdiv_eq_ediv hru0 (by norm_num)]
  have hdiff :
      cUInt32 (ltn_histogram_timeval_to_ms ((ltn_histogram_timeval_subtract now h.intervalLast).1))
        > h.maxValMs := by
    rw [hms]
    unfold cUInt32
    unfold Timeval.us at hrus hneg hbound
    omega
  simp only [ltn_histogram_interval_update]
  rw [if_pos (Or.inr hdiff)]

/-- C7 amended, witness at a concrete input (clock stepping from 20 s back
to 10 s on the video-preset histogram). -/
theorem C7_amended_witness :
    ltn_histogram_interval_update { histVideo with intervalLast := { sec := 20, usec := 0 } }
        { sec := 10, usec := 0 } =
      ({ histVideo with intervalLast := { sec := 10, usec := 0 }, bucketMissCount := 1 }, -1) :=
  C7_amended { histVideo with intervalLast := { sec := 20, usec := 0 } } { sec := 10, usec := 0 }
    (by decide) (by decide) (by decide) (by decide) (by decide) (by decide) (by decide)

/-- C10: ltn_histogram_cumulative_finalize only reads cumulativeMs and
returns it; only ltn_histogram_cumulative_initialize and
ltn_histogram_reset clear it; hence two consecutive finalize calls without
an intervening initialize record the same aggregate twice: the bucket for
it (by the in-range test of the code) gains 2, or bucketMissCount gains 2. -/
theorem C10_cumulative_finalize_frame (h : Histogram) (t1 t2 : Timeval)
    (hmax : h.maxValMs < 4294967296) :
    (ltn_histogram_cumulative_finalize h t1).1.cumulativeMs = h.cumulativeMs ∧
    (ltn_histogram_cumulative_finalize h t1).2 = h.cumulativeMs ∧
    (ltn_histogram_cumulative_initialise h).cumulativeMs = 0 ∧
    (ltn_histogram_reset h t1).cumulativeMs = 0 ∧
    (¬(h.cumulativeMs < h.minValMs ∨ h.cumulativeMs > h.maxValMs) →
      (ltn_histogram_cumulative_finalize (ltn_histogram_cumulative_finalize h t1).1 t2).1.buckets
          (h.cumulativeMs - h.minValMs) = h.buckets (h.cumulativeMs - h.minValMs) + 2 ∧
      (ltn_histogram_cumulative_finalize (ltn_histogram_cumulative_finalize h t1).1 t2).1.bucketMissCount
          = h.bucketMissCount ∧
      ∀ i, i ≠ h.cumulativeMs - h.minValMs →
        (ltn_histogram_cumulative_finalize (ltn_histogram_cumulative_finalize h t1).1 t2).1.buckets i
          = h.buckets i) ∧
    ((h.cumulativeMs < h.minValMs ∨ h.cumulativeMs > h.maxValMs) →
      (ltn_histogram_cumulative_finalize (ltn_histogram_cumulative_finalize h t1).1 t2).1.bucketMissCount
          = h.bucketMissCount + 2 ∧
      ∀ i, (ltn_histogram_cumulative_finalize (ltn_histogram_cumulative_finalize h t1).1 t2).1.buckets i
          = h.buckets i) := by
  by_cases hc : h.cumulativeMs < h.minValMs ∨ h.cumulativeMs > h.maxValMs
  · simp only [ltn_histogram_cumulative_finalize, ltn_histogram_cumulative_initialise,
      ltn_histogram_reset, if_pos hc]
    exact ⟨trivial, trivial, trivial, trivial, fun hnc => absurd hc hnc,
      fun _ => ⟨trivial, fun _ => trivial⟩⟩
  · have hidx : u64sub (h.cumulativeMs % 4294967296) (h.minValMs % 18446744073709551616)
        = h.cumulativeMs - h.minValMs := by
      unfold u64sub
      omega
    simp only [ltn_histogram_cumulative_finalize, ltn_histogram_cumulative_initialise,
      ltn_histogram_reset, ltn_histogram_bucket_index, if_neg hc, hidx]
    refine ⟨trivial, trivial, trivial, trivial, fun _ => ⟨?_, trivial, fun i hi => ?_⟩,
      fun hc2 => absurd hc2 hc⟩
    · simp only [updFn, if_true, eq_self_iff_true]
    · simp [updFn, hi]

/-! Registry data model (nic_monitor_di.c) -/

/-- ntohl on a little-endian host (the relevant source branches are the
__linux__ ones): 32-bit byte swap. -/
def ntohl (x : Nat) : Nat :=
  (x % 256) * 16777216 + (x / 256 % 256) * 65536 + (x / 65536 % 256) * 256 + (x / 16777216 % 256)

/-- ntohs on a little-endian host: 16-bit byte swap. -/
def ntohs (x : Nat) : Nat := (x % 256) * 256 + (x / 256 % 256)

/-- struct iphdr (linux field names); the address fields hold the bytes as
received, i.e. in network byte order. -/
structure IpHdr where
  saddr : Nat
  daddr : Nat
deriving DecidableEq, Repr

/-- struct udphdr; port fields in network byte order. -/
structure UdpHdr where
  uh_sport : Nat
  uh_dport : Nat
deriving DecidableEq, Repr

/-- hash_index_cal_hash: ((addr << 4) & 0xfff0) | (port & 0x000f), computed
on a uint32_t address (hence the wrap of the shift) and a uint16_t port. -/
def hash_index_cal_hash (addr : Nat) (port : Nat) : Nat :=
  (((addr <<< 4) % 4294967296) &&& 0xfff0) ||| (port &&& 0x000f)

/-- Model of _compute_stream_hash: destination address and port, converted
to host order, fed to hash_index_cal_hash. -/
def _compute_stream_hash (ip : IpHdr) (udp : UdpHdr) : Nat :=
  hash_index_cal_hash (ntohl ip.daddr) (ntohs udp.uh_dport)

/-- Modelled from the spec: the DI_STATE_* flag constants are declared in
nic_monitor.h, which is not under src/; the spec only requires them to be
distinct bits of the state bitfield, so they are assigned bits 0..9 in the
order the spec lists them. -/
def DI_STATE_DST_DUPLICATE : Nat := 1

/-- Modelled from the spec: see DI_STATE_DST_DUPLICATE. -/
def DI_STATE_PCAP_RECORDING : Nat := 2

/-- Modelled from the spec: see DI_STATE_DST_DUPLICATE. -/
def DI_STATE_PCAP_RECORD_START : Nat := 4

/-- Modelled from the spec: see DI_STATE_DST_DUPLICATE. -/
def DI_STATE_PCAP_RECORD_STOP : Nat := 8

/-- Modelled from the spec: see DI_STATE_DST_DUPLICATE. -/
def DI_STATE_SELECTED : Nat := 16

/-- Modelled from the spec: see DI_STATE_DST_DUPLICATE. -/
def DI_STATE_HIDDEN : Nat := 32

/-- struct discovered_item_s, reduced to the fields the claims mention.
The id field models pointer identity (fresh ids play the role of fresh
heap addresses).  Header snapshots are immutable after construction.
The timestamps, ascii address strings, histogram and analyzer handles of
the real record are not needed by any claim and are omitted. -/
structure DiscoveredItem where
  id : Nat
  ethhdr : Nat
  iphdr : IpHdr
  udphdr : UdpHdr
  state : Nat
  iat_lwm_us : Int
  iat_hwm_us : Int
  iat_cur_us : Int
deriving DecidableEq, Repr

/-- discovered_item_state_set: di->state |= state. -/
def discovered_item_state_set (di : DiscoveredItem) (state : Nat) : DiscoveredItem :=
  { di with state := di.state ||| state }

/-- discovered_item_state_clr: di->state &= ~state, on a 32-bit unsigned
bitfield. -/
def discovered_item_state_clr (di : DiscoveredItem) (state : Nat) : DiscoveredItem :=
  { di with state := di.state &&& (4294967295 ^^^ state) }

/-- discovered_item_state_get: di->state & state. -/
def discovered_item_state_get (di : DiscoveredItem) (state : Nat) : Nat :=
  di.state &&& state

/-- discovered_item_alloc: calloc zeroes the record (state = 0), the three
headers are snapshotted, the IAT watermarks get their sentinels.  The id
argument models the fresh pointer returned by calloc. -/
def discovered_item_alloc (id : Nat) (ethhdr : Nat) (ip : IpHdr) (udp : UdpHdr) :
    DiscoveredItem :=
  { id := id, ethhdr := ethhdr, iphdr := ip, udphdr := udp, state := 0,
    iat_lwm_us := 50000000, iat_hwm_us := -1, iat_cur_us := 0 }

/-- The uint64 ordering key computed inside discovered_item_insert (linux
branch): (uint64)ntohl(iphdr.daddr) << 16, OR-ed with udphdr.uh_dport.
Note the source does not apply ntohs to the port here. -/
def di_sort_key (di : DiscoveredItem) : Nat :=
  (((ntohl di.iphdr.daddr) <<< 16) % 18446744073709551616) ||| di.udphdr.uh_dport

/-- discovered_item_insert, expressed on the ordered list it manipulates:
walk the sorted list, skip entries with a smaller key, mark both records
DST_DUPLICATE when the first non-smaller key is equal, and insert the new
record before the first entry whose key is not smaller (else append). -/
def discovered_item_insert_list : List DiscoveredItem → DiscoveredItem → List DiscoveredItem
  | [], di => [di]
  | e :: rest, di =>
    if di_sort_key e < di_sort_key di then
      e :: discovered_item_insert_list rest di
    else if di_sort_key e = di_sort_key di then
      discovered_item_state_set di DI_STATE_DST_DUPLICATE ::
        discovered_item_state_set e DI_STATE_DST_DUPLICATE :: rest
    else
      di :: e :: rest

/-- struct tool_context_s, reduced to the registry state the claims
mention.  The hash index maps each 16-bit hash to its slot chain of record
ids (insertion order).  nextId is the allocator counter producing fresh
pointer identities.  The floating-point cacheHitRatio is not modelled. -/
structure ToolContext where
  list : List DiscoveredItem
  hashIndex : Nat → List Nat
  cacheHit : Nat
  cacheMiss : Nat
  automaticallyRecordStreams : Bool
  nextId : Nat

/-- Modelled from the spec: hash_index_set (declared in nic_monitor.h, body
not under src/) appends the value to the slot chain; duplicates are not
inserted. -/
def hash_index_set (idx : Nat → List Nat) (h v : Nat) : Nat → List Nat :=
  fun h2 => if h2 = h then (if v ∈ idx h then idx h else idx h ++ [v]) else idx h2

/-- Modelled from the spec: hash_index_get_count returns the chain length
of the slot. -/
def hash_index_get_count (idx : Nat → List Nat) (h : Nat) : Nat := (idx h).length

/-- Modelled from the spec: network_addr_compare returns 1 exactly on an
exact 4-tuple match of (srcIP, srcPort, dstIP, dstPort). -/
def network_addr_compare (ip1 : IpHdr) (udp1 : UdpHdr) (ip2 : IpHdr) (udp2 : UdpHdr) : Bool :=
  ip1.saddr == ip2.saddr && ip1.daddr == ip2.daddr &&
    udp1.uh_sport == udp2.uh_sport && udp1.uh_dport == udp2.uh_dport

/-- Dereference of a chain entry: the record of the registry list carrying
this id (pointer identity). -/
def di_find (l : List DiscoveredItem) (id : Nat) : Option DiscoveredItem :=
  l.find? (fun di => di.id == id)

/-- The cache-probe phase of discovered_item_findcreate: when the chain of
the stream hash is nonempty, enumerate it in order (hash_index_get_enum)
and return the first entry whose headers pass network_addr_compare. -/
def fc_lookup (ctx : ToolContext) (ip : IpHdr) (udp : UdpHdr) : Option Nat :=
  if 1 ≤ hash_index_get_count ctx.hashIndex (_compute_stream_hash ip udp) then
    (ctx.hashIndex (_compute_stream_hash ip udp)).find? (fun v =>
      match di_find ctx.list v with
      | some item => network_addr_compare ip udp item.iphdr item.udphdr
      | none => false)
  else none

/-- Setting a state flag through a pointer to a record living in the
registry list (discovered_item_state_set applied in place, located by
pointer identity). -/
def list_state_set (l : List DiscoveredItem) (id : Nat) (mask : Nat) : List DiscoveredItem :=
  l.map (fun di => if di.id == id then discovered_item_state_set di mask else di)

/-- discovered_item_findcreate.  The allocOk flag models the success of
the calloc inside discovered_item_alloc.  On a miss with successful
allocation the new record is inserted into the ordered list, registered in
the hash slot, and PCAP_RECORD_START is set when automaticallyRecordStreams
is configured.  The verbose printf paths and the floating-point
cacheHitRatio update have no effect on the modelled state. -/
def discovered_item_findcreate (ctx : ToolContext) (allocOk : Bool)
    (ethhdr : Nat) (ip : IpHdr) (udp : UdpHdr) : ToolContext × Option Nat :=
  match fc_lookup ctx ip udp with
  | some v => ({ ctx with cacheHit := ctx.cacheHit + 1 }, some v)
  | none =>
    let ctx1 := { ctx with cacheMiss := ctx.cacheMiss + 1 }
    if allocOk then
      let di := discovered_item_alloc ctx.nextId ethhdr ip udp
      let l1 := discovered_item_insert_list ctx1.list di
      let idx1 := hash_index_set ctx1.hashIndex (_compute_stream_hash ip udp) ctx.nextId
      let l2 := if ctx1.automaticallyRecordStreams then
          list_state_set l1 ctx.nextId DI_STATE_PCAP_RECORD_START
        else l1
      ({ ctx1 with list := l2, hashIndex := idx1, nextId := ctx.nextId + 1 }, some ctx.nextId)
    else (ctx1, none)

/-- One captured packet: the header triple handed to findcreate. -/
structure Packet where
  ethhdr : Nat
  ip : IpHdr
  udp : UdpHdr
deriving DecidableEq, Repr

/-- The (srcIP, srcPort, dstIP, dstPort) 4-tuple of a packet. -/
def packet_tuple (p : Packet) : Nat × Nat × Nat × Nat :=
  (p.ip.saddr, p.udp.uh_sport, p.ip.daddr, p.udp.uh_dport)

/-- The (srcIP, srcPort, dstIP, dstPort) 4-tuple of a flow record. -/
def di_tuple (di : DiscoveredItem) : Nat × Nat × Nat × Nat :=
  (di.iphdr.saddr, di.udphdr.uh_sport, di.iphdr.daddr, di.udphdr.uh_dport)

/-- A sequence of findcreate calls on the capture path, all allocations
succeeding; returns the final registry and the returned record pointers. -/
def run_findcreate (ctx : ToolContext) : List Packet → ToolContext × List (Option Nat)
  | [] => (ctx, [])
  | p :: ps =>
    let s := discovered_item_findcreate ctx true p.ethhdr p.ip p.udp
    let rest := run_findcreate s.1 ps
    (rest.1, s.2 :: rest.2)

/-- A freshly initialized registry: empty list, empty hash index, zeroed
cache counters. -/
def init_ctx (auto : Bool) : ToolContext :=
  { list := [], hashIndex := fun _ => [], cacheHit := 0, cacheMiss := 0,
    automaticallyRecordStreams := auto, nextId := 0 }

/-- discovered_items_select_first: sets SELECTED on the first list entry
and breaks out of the loop immediately; there is no HIDDEN test. -/
def discovered_items_select_first (ctx : ToolContext) : ToolContext :=
  match ctx.list with
  | [] => ctx
  | e :: rest => { ctx with list := discovered_item_state_set e DI_STATE_SELECTED :: rest }

/-- The loop body of discovered_items_select_next, as a walk over the list.
Hidden entries are skipped; at the first visible selected entry the
SELECTED flag is cleared unless the entry is the last entry of the whole
list (e->list.next != &ctx->list, i.e. the remainder of the list is
nonempty), and the walk continues with doSelect set; the next visible
entry not in the SELECTED branch is selected and the loop breaks. -/
def select_next_walk : List DiscoveredItem → Bool → List DiscoveredItem
  | [], _ => []
  | e :: rest, doSelect =>
    if discovered_item_state_get e DI_STATE_HIDDEN ≠ 0 then
      e :: select_next_walk rest doSelect
    else if discovered_item_state_get e DI_STATE_SELECTED ≠ 0 then
      (if rest ≠ [] then discovered_item_state_clr e DI_STATE_SELECTED else e) ::
        select_next_walk rest true
    else if doSelect then
      discovered_item_state_set e DI_STATE_SELECTED :: rest
    else
      e :: select_next_walk rest false

/-- discovered_items_select_next. -/
def discovered_items_select_next (ctx : ToolContext) : ToolContext :=
  { ctx with list := select_next_walk ctx.list false }

/-! Selection and error-handling claims -/

/-- C9: discovered_items_select_first sets SELECTED on the head of the
registry list unconditionally; the loop body contains no HIDDEN test. -/
theorem C9_select_first_unconditional (ctx : ToolContext) (e : DiscoveredItem)
    (rest : List DiscoveredItem) (hl : ctx.list = e :: rest) :
    (discovered_items_select_first ctx).list =
      discovered_item_state_set e DI_STATE_SELECTED :: rest := by
  simp only [discovered_items_select_first, hl]

/-- A one-record registry whose only record is hidden. -/
def diC9 : DiscoveredItem :=
  { id := 0, ethhdr := 0, iphdr := { saddr := 0, daddr := 0 },
    udphdr := { uh_sport := 0, uh_dport := 0 }, state := DI_STATE_HIDDEN,
    iat_lwm_us := 50000000, iat_hwm_us := -1, iat_cur_us := 0 }

/-- Registry holding only diC9. -/
def ctxC9 : ToolContext :=
  { list := [diC9], hashIndex := fun _ => [], cacheHit := 0, cacheMiss := 0,
    automaticallyRecordStreams := false, nextId := 1 }

/-- C9 witness: select_first on a list whose head is hidden still selects
it, so the selection is simultaneously HIDDEN and SELECTED. -/
theorem C9_select_first_unconditional_witness :
    (discovered_items_select_first ctxC9).list =
      discovered_item_state_set diC9 DI_STATE_SELECTED :: [] ∧
    discovered_item_state_get (discovered_item_state_set diC9 DI_STATE_SELECTED)
      DI_STATE_HIDDEN ≠ 0 ∧
    discovered_item_state_get (discovered_item_state_set diC9 DI_STATE_SELECTED)
      DI_STATE_SELECTED ≠ 0 :=
  ⟨C9_select_first_unconditional ctxC9 diC9 [] rfl, by decide, by decide⟩

/-- C8: when the cache probe misses and the record allocation fails,
findcreate returns the null pointer, leaves the ordered list and the hash
index untouched, and still counts the call as a cache miss. -/
theorem C8_findcreate_alloc_failure (ctx : ToolContext) (ethhdr : Nat)
    (ip : IpHdr) (udp : UdpHdr) (hmiss : fc_lookup ctx ip udp = none) :
    (discovered_item_findcreate ctx false ethhdr ip udp).2 = none ∧
    (discovered_item_findcreate ctx false ethhdr ip udp).1.list = ctx.list ∧
    (discovered_item_findcreate ctx false ethhdr ip udp).1.hashIndex = ctx.hashIndex ∧
    (discovered_item_findcreate ctx false ethhdr ip udp).1.cacheMiss = ctx.cacheMiss + 1 ∧
    (discovered_item_findcreate ctx false ethhdr ip udp).1.cacheHit = ctx.cacheHit := by
  simp [discovered_item_findcreate, hmiss]

/-- C8 witness: a failed allocation on the empty registry. -/
theorem C8_findcreate_alloc_failure_witness :
    (discovered_item_findcreate (init_ctx false) false 7
        { saddr := 1, daddr := 2 } { uh_sport := 3, uh_dport := 4 }).2 = none ∧
    (discovered_item_findcreate (init_ctx false) false 7
        { saddr := 1, daddr := 2 } { uh_sport := 3, uh_dport := 4 }).1.list =
      (init_ctx false).list ∧
    (discovered_item_findcreate (init_ctx false) false 7
        { saddr := 1, daddr := 2 } { uh_sport := 3, uh_dport := 4 }).1.hashIndex =
      (init_ctx false).hashIndex ∧
    (discovered_item_findcreate (init_ctx false) false 7
        { saddr := 1, daddr := 2 } { uh_sport := 3, uh_dport := 4 }).1.cacheMiss =
      (init_ctx false).cacheMiss + 1 ∧
    (discovered_item_findcreate (init_ctx false) false 7
        { saddr := 1, daddr := 2 } { uh_sport := 3, uh_dport := 4 }).1.cacheHit =
      (init_ctx false).cacheHit :=
  C8_findcreate_alloc_failure (init_ctx false) 7
    { saddr := 1, daddr := 2 } { uh_sport := 3, uh_dport := 4 } rfl

/-- A visible selected record used by the C4 scenario. -/
def diSelC4 : DiscoveredItem :=
  { id := 1, ethhdr := 0, iphdr := { saddr := 0, daddr := 0 },
    udphdr := { uh_sport := 0, uh_dport := 0 }, state := DI_STATE_SELECTED,
    iat_lwm_us := 50000000, iat_hwm_us := -1, iat_cur_us := 0 }

/-- A hidden record used by the C4 scenario. -/
def diHidC4 : DiscoveredItem :=
  { id := 2, ethhdr := 0, iphdr := { saddr := 0, daddr := 0 },
    udphdr := { uh_sport := 0, uh_dport := 1 }, state := DI_STATE_HIDDEN,
    iat_lwm_us := 50000000, iat_hwm_us := -1, iat_cur_us := 0 }

/-- Two-record registry: the selected record is the last non-hidden entry
but a hidden record still follows it. -/
def ctxC4 : ToolContext :=
  { list := [diSelC4, diHidC4], hashIndex := fun _ => [], cacheHit := 0, cacheMiss := 0,
    automaticallyRecordStreams := false, nextId := 3 }

/-- C4 counterexample: with the selected record the last non-hidden entry
(followed only by a hidden record), select_next clears its SELECTED flag
because it is not the last entry of the whole list; afterwards no record
at all is selected, refuting the claim that it remains SELECTED. -/
theorem C4_select_next_counterexample :
    discovered_item_state_get diSelC4 DI_STATE_SELECTED ≠ 0 ∧
    discovered_item_state_get diSelC4 DI_STATE_HIDDEN = 0 ∧
    discovered_item_state_get diHidC4 DI_STATE_HIDDEN ≠ 0 ∧
    ∀ di ∈ (discovered_items_select_next ctxC4).list,
      discovered_item_state_get di DI_STATE_SELECTED = 0 := by
  decide

/-- Specification-side description of the tail of the walk once the
current selection has been passed: hidden records are skipped, the first
visible record becomes selected, nothing wraps around. -/
def spec_advance : List DiscoveredItem → List DiscoveredItem
  | [] => []
  | f :: rest =>
    if discovered_item_state_get f DI_STATE_HIDDEN ≠ 0 then f :: spec_advance rest
    else discovered_item_state_set f DI_STATE_SELECTED :: rest

/-- The walk leaves an unselected prefix untouched. -/
theorem walk_append (l1 m : List DiscoveredItem)
    (h1 : ∀ x ∈ l1, discovered_item_state_get x DI_STATE_SELECTED = 0) :
    select_next_walk (l1 ++ m) false = l1 ++ select_next_walk m false := by
  induction l1 with
  | nil => rfl
  | cons a t ih =>
    have ha := h1 a (by simp)
    have ih2 := ih (fun x hx => h1 x (by simp [hx]))
    by_cases hh : discovered_item_state_get a DI_STATE_HIDDEN ≠ 0
    · simp [select_next_walk, hh, ih2]
    · simp [select_next_walk, hh, ha, ih2]

/-- After the selection has been passed, the walk acts as spec_advance on
an unselected remainder. -/
theorem walk_true_eq_spec_advance (l2 : List DiscoveredItem)
    (h2 : ∀ x ∈ l2, discovered_item_state_get x DI_STATE_SELECTED = 0) :
    select_next_walk l2 true = spec_advance l2 := by
  induction l2 with
  | nil => rfl
  | cons a t ih =>
    have ha := h2 a (by simp)
    have ih2 := ih (fun x hx => h2 x (by simp [hx]))
    by_cases hh : discovered_item_state_get a DI_STATE_HIDDEN ≠ 0
    · simp [select_next_walk, spec_advance, hh, ih2]
    · simp [select_next_walk, spec_advance, hh, ha]

/-- C4 amended: with a unique selected, visible record e, select_next
skips hidden records and never wraps: the records after e are advanced by
spec_advance (first visible one becomes selected), and e keeps its
SELECTED flag only when it is the last entry of the entire list; when only
hidden records follow it, its flag is cleared and no record is selected. -/
theorem C4_select_next_amended (ctx : ToolContext) (l1 l2 : List DiscoveredItem)
    (e : DiscoveredItem)
    (he_sel : discovered_item_state_get e DI_STATE_SELECTED ≠ 0)
    (he_vis : discovered_item_state_get e DI_STATE_HIDDEN = 0)
    (h1 : ∀ x ∈ l1, discovered_item_state_get x DI_STATE_SELECTED = 0)
    (h2 : ∀ x ∈ l2, discovered_item_state_get x DI_STATE_SELECTED = 0)
    (hl : ctx.list = l1 ++ e :: l2) :
    (discovered_items_select_next ctx).list =
      l1 ++ (if l2 = [] then e else discovered_item_state_clr e DI_STATE_SELECTED) ::
        spec_advance l2 := by
  simp only [discovered_items_select_next, hl]
  rw [walk_append l1 (e :: l2) h1]
  have hstep : select_next_walk (e :: l2) false =
      (if l2 = [] then e else discovered_item_state_clr e DI_STATE_SELECTED) ::
        spec_advance l2 := by
    simp only [select_next_walk, if_neg (by simp [he_vis] :
        ¬discovered_item_state_get e DI_STATE_HIDDEN ≠ 0), if_pos he_sel]
    rw [walk_true_eq_spec_advance l2 h2]
    by_cases hl2 : l2 = []
    · simp [hl2]
    · simp [hl2]
  rw [hstep]

/-- C4 amended, witness on the two-record registry of the counterexample:
the selection is cleared (l2 is the nonempty hidden remainder). -/
theorem C4_select_next_amended_witness :
    (discovered_items_select_next ctxC4).list =
      [] ++ (if ([diHidC4] : List DiscoveredItem) = [] then diSelC4
        else discovered_item_state_clr diSelC4 DI_STATE_SELECTED) ::
        spec_advance [diHidC4] :=
  C4_select_next_amended ctxC4 [] [diHidC4] diSelC4 (by decide) (by decide)
    (by decide) (by decide) rfl

/-! Registry invariant machinery -/

def di_hash (di : DiscoveredItem) : Nat := _compute_stream_hash di.iphdr di.udphdr

def lookup_tuple (ctx : ToolContext) (t : Nat × Nat × Nat × Nat) : Option Nat :=
  (ctx.list.find? (fun di => decide (di_tuple di = t))).map (fun di => di.id)

/-- The pairwise DST_DUPLICATE obligation of a record list. -/
def dup_ok (l : List DiscoveredItem) : Prop :=
  ∀ x ∈ l, ∀ y ∈ l, x.id ≠ y.id → di_sort_key x = di_sort_key y →
    discovered_item_state_get x DI_STATE_DST_DUPLICATE ≠ 0

structure RegInv (ctx : ToolContext) : Prop where
  ids_lt : ∀ di ∈ ctx.list, di.id < ctx.nextId
  ids_nodup : (ctx.list.map DiscoveredItem.id).Nodup
  tuples_nodup : (ctx.list.map di_tuple).Nodup
  in_chain : ∀ di ∈ ctx.list, di.id ∈ ctx.hashIndex (di_hash di)
  chain_sound : ∀ h v, v ∈ ctx.hashIndex h → ∃ di ∈ ctx.list, di.id = v ∧ di_hash di = h
  chain_nodup : ∀ h, (ctx.hashIndex h).Nodup
  sorted : (ctx.list.map di_sort_key).Pairwise (· ≤ ·)
  dup_flag : dup_ok ctx.list

-- bit-0 lemmas for the DST_DUPLICATE flag
theorem get_dup_eq (di : DiscoveredItem) :
    discovered_item_state_get di DI_STATE_DST_DUPLICATE = di.state % 2 := by
  simp [discovered_item_state_get, DI_STATE_DST_DUPLICATE, Nat.and_one_is_mod]

theorem get_dup_set_dup (di : DiscoveredItem) :
    discovered_item_state_get (discovered_item_state_set di DI_STATE_DST_DUPLICATE)
      DI_STATE_DST_DUPLICATE ≠ 0 := by
  simp only [get_dup_eq, discovered_item_state_set]
  have : (di.state ||| DI_STATE_DST_DUPLICATE) % 2 = 1 := by
    rw [Nat.or_mod_two_eq_one]
    right
    decide
  omega

theorem get_dup_set_mono (di : DiscoveredItem) (m : Nat)
    (h : discovered_item_state_get di DI_STATE_DST_DUPLICATE ≠ 0) :
    discovered_item_state_get (discovered_item_state_set di m)
      DI_STATE_DST_DUPLICATE ≠ 0 := by
  simp only [get_dup_eq, discovered_item_state_set] at h ⊢
  have : (di.state ||| m) % 2 = 1 := by
    rw [Nat.or_mod_two_eq_one]
    left
    omega
  omega

-- record-field preservation of the state operations
theorem state_set_fields (di : DiscoveredItem) (m : Nat) :
    (discovered_item_state_set di m).id = di.id ∧
    (discovered_item_state_set di m).iphdr = di.iphdr ∧
    (discovered_item_state_set di m).udphdr = di.udphdr := ⟨rfl, rfl, rfl⟩

theorem di_tuple_state_set (di : DiscoveredItem) (m : Nat) :
    di_tuple (discovered_item_state_set di m) = di_tuple di := rfl

theorem di_sort_key_state_set (di : DiscoveredItem) (m : Nat) :
    di_sort_key (discovered_item_state_set di m) = di_sort_key di := rfl

theorem di_hash_state_set (di : DiscoveredItem) (m : Nat) :
    di_hash (discovered_item_state_set di m) = di_hash di := rfl

/-- Case analysis of discovered_item_insert on the list: either every key
is smaller and the record is appended, or the list splits at the first
entry with a key not smaller, before which the record is placed (marking
both records DST_DUPLICATE on key equality). -/
theorem insert_list_cases (l : List DiscoveredItem) (di : DiscoveredItem) :
    ((∀ x ∈ l, di_sort_key x < di_sort_key di) ∧
      discovered_item_insert_list l di = l ++ [di]) ∨
    (∃ l1 e l2, l = l1 ++ e :: l2 ∧
      (∀ x ∈ l1, di_sort_key x < di_sort_key di) ∧
      ¬ di_sort_key e < di_sort_key di ∧
      ((di_sort_key e = di_sort_key di ∧
          discovered_item_insert_list l di =
            l1 ++ discovered_item_state_set di DI_STATE_DST_DUPLICATE ::
              discovered_item_state_set e DI_STATE_DST_DUPLICATE :: l2) ∨
        (di_sort_key e ≠ di_sort_key di ∧
          discovered_item_insert_list l di = l1 ++ di :: e :: l2))) := by
  induction l with
  | nil =>
    left
    exact ⟨by simp, rfl⟩
  | cons a t ih =>
    by_cases h1 : di_sort_key a < di_sort_key di
    · rcases ih with ⟨hall, heq⟩ | ⟨l1, e, l2, ht, hl1, he, hcase⟩
      · left
        refine ⟨?_, ?_⟩
        · intro x hx
          rcases List.mem_cons.1 hx with rfl | hx
          · exact h1
          · exact hall x hx
        · simp [discovered_item_insert_list, if_pos h1, heq]
      · right
        refine ⟨a :: l1, e, l2, by simp [ht], ?_, he, ?_⟩
        · intro x hx
          rcases List.mem_cons.1 hx with rfl | hx
          · exact h1
          · exact hl1 x hx
        · rcases hcase with ⟨hk, heq⟩ | ⟨hk, heq⟩
          · left
            exact ⟨hk, by simp [discovered_item_insert_list, if_pos h1, heq]⟩
          · right
            exact ⟨hk, by simp [discovered_item_insert_list, if_pos h1, heq]⟩
    · right
      refine ⟨[], a, t, rfl, by simp, h1, ?_⟩
      by_cases h2 : di_sort_key a = di_sort_key di
      · left
        exact ⟨h2, by simp [discovered_item_insert_list, if_neg h1, if_pos h2]⟩
      · right
        exact ⟨h2, by simp [discovered_item_insert_list, if_neg h1, if_neg h2]⟩

theorem list_state_set_map_id (l : List DiscoveredItem) (v m : Nat) :
    (list_state_set l v m).map DiscoveredItem.id = l.map DiscoveredItem.id := by
  unfold list_state_set
  induction l with
  | nil => rfl
  | cons a t ih => simp [apply_ite DiscoveredItem.id, discovered_item_state_set, ih]

theorem list_state_set_map_tuple (l : List DiscoveredItem) (v m : Nat) :
    (list_state_set l v m).map di_tuple = l.map di_tuple := by
  unfold list_state_set
  induction l with
  | nil => rfl
  | cons a t ih => simp [apply_ite di_tuple, di_tuple_state_set, ih]

theorem list_state_set_map_key (l : List DiscoveredItem) (v m : Nat) :
    (list_state_set l v m).map di_sort_key = l.map di_sort_key := by
  unfold list_state_set
  induction l with
  | nil => rfl
  | cons a t ih => simp [apply_ite di_sort_key, di_sort_key_state_set, ih]

/-- network_addr_compare is exactly 4-tuple equality. -/
theorem network_addr_compare_eq_true (ip1 : IpHdr) (udp1 : UdpHdr) (ip2 : IpHdr) (udp2 : UdpHdr) :
    network_addr_compare ip1 udp1 ip2 udp2 = true ↔
      (ip1.saddr = ip2.saddr ∧ ip1.daddr = ip2.daddr ∧
        udp1.uh_sport = udp2.uh_sport ∧ udp1.uh_dport = udp2.uh_dport) := by
  simp [network_addr_compare, and_assoc]

/-- The hash of a record only depends on its destination pair, which the
4-tuple determines. -/
theorem di_hash_eq_of_tuple (di : DiscoveredItem) (ip : IpHdr) (udp : UdpHdr)
    (h : di_tuple di = (ip.saddr, udp.uh_sport, ip.daddr, udp.uh_dport)) :
    di_hash di = _compute_stream_hash ip udp := by
  unfold di_tuple at h
  simp only [Prod.mk.injEq] at h
  unfold di_hash _compute_stream_hash
  rw [h.2.2.1, h.2.2.2]

/-- Soundness of the cache probe: a hit returns the id of a list record
with exactly the probed 4-tuple. -/
theorem fc_lookup_sound (ctx : ToolContext) (ip : IpHdr) (udp : UdpHdr) (v : Nat)
    (h : fc_lookup ctx ip udp = some v) :
    ∃ di ∈ ctx.list, di.id = v ∧
      di_tuple di = (ip.saddr, udp.uh_sport, ip.daddr, udp.uh_dport) := by
  unfold fc_lookup at h
  by_cases hc : 1 ≤ hash_index_get_count ctx.hashIndex (_compute_stream_hash ip udp)
  · rw [if_pos hc] at h
    have hp := List.find?_some h
    cases hfind : di_find ctx.list v with
    | none => rw [hfind] at hp; simp at hp
    | some item =>
      rw [hfind] at hp
      have hmem := List.mem_of_find?_eq_some hfind
      have hid : item.id = v := by
        have := List.find?_some hfind
        simpa using this
      refine ⟨item, hmem, hid, ?_⟩
      have hcmp : network_addr_compare ip udp item.iphdr item.udphdr = true := hp
      obtain ⟨h1, h2, h3, h4⟩ := (network_addr_compare_eq_true ip udp item.iphdr item.udphdr).1 hcmp
      unfold di_tuple
      simp only [Prod.mk.injEq]
      exact ⟨h1.symm, h3.symm, h2.symm, h4.symm⟩
  · rw [if_neg hc] at h
    exact absurd h (by simp)

/-- Completeness of the cache probe: if some list record carries the
probed 4-tuple, the probe does not miss. -/
theorem fc_lookup_complete (ctx : ToolContext) (inv : RegInv ctx) (ip : IpHdr) (udp : UdpHdr)
    (di : DiscoveredItem) (hmem : di ∈ ctx.list)
    (ht : di_tuple di = (ip.saddr, udp.uh_sport, ip.daddr, udp.uh_dport)) :
    fc_lookup ctx ip udp ≠ none := by
  have hhash : di_hash di = _compute_stream_hash ip udp := di_hash_eq_of_tuple di ip udp ht
  have hchain : di.id ∈ ctx.hashIndex (_compute_stream_hash ip udp) := by
    rw [← hhash]; exact inv.in_chain di hmem
  have hcnt : 1 ≤ hash_index_get_count ctx.hashIndex (_compute_stream_hash ip udp) := by
    unfold hash_index_get_count
    exact List.length_pos.2 (List.ne_nil_of_mem hchain)
  unfold fc_lookup
  rw [if_pos hcnt]
  intro hnone
  rw [List.find?_eq_none] at hnone
  apply hnone di.id hchain
  have hfind : di_find ctx.list di.id = some di := by
    unfold di_find
    cases hf : ctx.list.find? (fun x => x.id == di.id) with
    | none =>
      rw [List.find?_eq_none] at hf
      exact absurd (by simp : (di.id == di.id) = true) (hf di hmem)
    | some y =>
      have hy := List.mem_of_find?_eq_some hf
      have hyid : y.id = di.id := by simpa using List.find?_some hf
      have : y = di := List.inj_on_of_nodup_map inv.ids_nodup hy hmem hyid
      rw [this]
  show (match di_find ctx.list di.id with
    | some item => network_addr_compare ip udp item.iphdr item.udphdr
    | none => false) = true
  rw [hfind]
  show network_addr_compare ip udp di.iphdr di.udphdr = true
  rw [network_addr_compare_eq_true]
  unfold di_tuple at ht
  simp only [Prod.mk.injEq] at ht
  exact ⟨ht.1.symm, ht.2.2.1.symm, ht.2.1.symm, ht.2.2.2.symm⟩

/-- The insertion-invariant signature of a record: pointer identity,
4-tuple, ordering key and hash.  State-flag changes do not affect it. -/
def di_sig (di : DiscoveredItem) : Nat × (Nat × Nat × Nat × Nat) × Nat × Nat :=
  (di.id, di_tuple di, di_sort_key di, di_hash di)

theorem di_sig_state_set (di : DiscoveredItem) (m : Nat) :
    di_sig (discovered_item_state_set di m) = di_sig di := rfl

theorem list_state_set_map_sig (l : List DiscoveredItem) (v m : Nat) :
    (list_state_set l v m).map di_sig = l.map di_sig := by
  unfold list_state_set
  induction l with
  | nil => rfl
  | cons a t ih => simp [apply_ite di_sig, di_sig_state_set, ih]

/-- Inserting a record permutes the signature list: the new signature in
front of the old ones. -/
theorem insert_list_sig_perm (l : List DiscoveredItem) (di : DiscoveredItem) :
    ((discovered_item_insert_list l di).map di_sig).Perm (di_sig di :: l.map di_sig) := by
  rcases insert_list_cases l di with ⟨_, heq⟩ | ⟨l1, e, l2, hsplit, _, _, hcase⟩
  · rw [heq, List.map_append]
    exact List.perm_append_singleton _ _
  · rcases hcase with ⟨_, heq⟩ | ⟨_, heq⟩
    · rw [heq, hsplit]
      simp only [List.map_append, List.map_cons, di_sig_state_set]
      exact List.perm_middle
    · rw [heq, hsplit]
      simp only [List.map_append, List.map_cons]
      exact List.perm_middle

/-- The modelled registry list after a successful miss-path insertion. -/
def fc_miss_list (ctx : ToolContext) (ethhdr : Nat) (ip : IpHdr) (udp : UdpHdr) :
    List DiscoveredItem :=
  let l1 := discovered_item_insert_list ctx.list (discovered_item_alloc ctx.nextId ethhdr ip udp)
  if ctx.automaticallyRecordStreams then
    list_state_set l1 ctx.nextId DI_STATE_PCAP_RECORD_START
  else l1

/-- The modelled registry after a successful miss-path insertion. -/
def fc_miss_ctx (ctx : ToolContext) (ethhdr : Nat) (ip : IpHdr) (udp : UdpHdr) : ToolContext :=
  { list := fc_miss_list ctx ethhdr ip udp
    hashIndex := hash_index_set ctx.hashIndex (_compute_stream_hash ip udp) ctx.nextId
    cacheHit := ctx.cacheHit
    cacheMiss := ctx.cacheMiss + 1
    automaticallyRecordStreams := ctx.automaticallyRecordStreams
    nextId := ctx.nextId + 1 }

theorem findcreate_miss_eq (ctx : ToolContext) (ethhdr : Nat) (ip : IpHdr) (udp : UdpHdr)
    (hmiss : fc_lookup ctx ip udp = none) :
    discovered_item_findcreate ctx true ethhdr ip udp =
      (fc_miss_ctx ctx ethhdr ip udp, some ctx.nextId) := by
  simp only [discovered_item_findcreate, hmiss, fc_miss_ctx, fc_miss_list]
  rfl

theorem findcreate_hit_eq (ctx : ToolContext) (ethhdr : Nat) (ip : IpHdr) (udp : UdpHdr)
    (v : Nat) (hhit : fc_lookup ctx ip udp = some v) :
    discovered_item_findcreate ctx true ethhdr ip udp =
      ({ ctx with cacheHit := ctx.cacheHit + 1 }, some v) := by
  simp only [discovered_item_findcreate, hhit]

/-- Signatures after the full miss-path list update. -/
theorem fc_miss_list_sig_perm (ctx : ToolContext) (ethhdr : Nat) (ip : IpHdr) (udp : UdpHdr) :
    ((fc_miss_list ctx ethhdr ip udp).map di_sig).Perm
      (di_sig (discovered_item_alloc ctx.nextId ethhdr ip udp) :: ctx.list.map di_sig) := by
  unfold fc_miss_list
  by_cases ha : ctx.automaticallyRecordStreams
  · simp only [if_pos ha, list_state_set_map_sig]
    exact insert_list_sig_perm _ _
  · simp only [if_neg ha]
    exact insert_list_sig_perm _ _

/-- A fresh id is in no chain. -/
theorem fresh_not_in_chain (ctx : ToolContext) (inv : RegInv ctx) (h : Nat) :
    ctx.nextId ∉ ctx.hashIndex h := by
  intro hmem
  obtain ⟨di, hdi, hid, _⟩ := inv.chain_sound h ctx.nextId hmem
  have := inv.ids_lt di hdi
  omega

theorem hash_index_set_self (idx : Nat → List Nat) (h v : Nat) (hnot : v ∉ idx h) :
    hash_index_set idx h v h = idx h ++ [v] := by
  simp [hash_index_set, hnot]

theorem hash_index_set_other (idx : Nat → List Nat) (h v h2 : Nat) (hne : h2 ≠ h) :
    hash_index_set idx h v h2 = idx h2 := by
  simp [hash_index_set, hne]

/-- Sorted-key invariant is preserved by the insert walk. -/
theorem insert_list_sorted (l : List DiscoveredItem) (di : DiscoveredItem)
    (hs : (l.map di_sort_key).Pairwise (· ≤ ·)) :
    ((discovered_item_insert_list l di).map di_sort_key).Pairwise (· ≤ ·) := by
  rcases insert_list_cases l di with ⟨hall, heq⟩ | ⟨l1, e, l2, hsplit, hl1, he, hcase⟩
  · rw [heq, List.map_append]
    rw [List.pairwise_append]
    refine ⟨hs, by simp, ?_⟩
    intro a ha b hb
    simp only [List.map_cons, List.map_nil, List.mem_singleton] at hb
    obtain ⟨x, hx, rfl⟩ := List.mem_map.1 ha
    subst hb
    exact le_of_lt (hall x hx)
  · subst hsplit
    rw [List.map_append, List.pairwise_append] at hs
    obtain ⟨hK1, hK2, hcross⟩ := hs
    simp only [List.map_cons, List.pairwise_cons] at hK2
    obtain ⟨hket, hK2t⟩ := hK2
    have hkey_le : di_sort_key di ≤ di_sort_key e := Nat.le_of_not_lt he
    have hgoal : ∀ tail : List DiscoveredItem,
        (tail.map di_sort_key).Pairwise (· ≤ ·) →
        (∀ b ∈ tail.map di_sort_key, di_sort_key e ≤ b) →
        ((l1 ++ discovered_item_state_set di DI_STATE_DST_DUPLICATE ::
          discovered_item_state_set e DI_STATE_DST_DUPLICATE :: tail).map di_sort_key).Pairwise (· ≤ ·) ∧
        ((l1 ++ di :: e :: tail).map di_sort_key).Pairwise (· ≤ ·) := by
      intro tail htail hle
      constructor
      · rw [List.map_append, List.pairwise_append]
        refine ⟨hK1, ?_, ?_⟩
        · simp only [List.map_cons, List.pairwise_cons, di_sort_key_state_set]
          refine ⟨?_, ?_, htail⟩
          · intro b hb
            rcases List.mem_cons.1 hb with rfl | hb
            · exact hkey_le
            · exact le_trans hkey_le (hle b hb)
          · intro b hb
            exact hle b hb
        · intro a ha b hb
          simp only [List.map_cons, di_sort_key_state_set] at hb
          obtain ⟨x, hx, rfl⟩ := List.mem_map.1 ha
          have h1 := le_of_lt (hl1 x hx)
          rcases List.mem_cons.1 hb with rfl | hb
          · exact h1
          rcases List.mem_cons.1 hb with rfl | hb
          · exact le_trans h1 hkey_le
          · exact le_trans h1 (le_trans hkey_le (hle b hb))
      · rw [List.map_append, List.pairwise_append]
        refine ⟨hK1, ?_, ?_⟩
        · simp only [List.map_cons, List.pairwise_cons]
          refine ⟨?_, ?_, htail⟩
          · intro b hb
            rcases List.mem_cons.1 hb with rfl | hb
            · exact hkey_le
            · exact le_trans hkey_le (hle b hb)
          · intro b hb
            exact hle b hb
        · intro a ha b hb
          simp only [List.map_cons] at hb
          obtain ⟨x, hx, rfl⟩ := List.mem_map.1 ha
          have h1 := le_of_lt (hl1 x hx)
          rcases List.mem_cons.1 hb with rfl | hb
          · exact h1
          rcases List.mem_cons.1 hb with rfl | hb
          · exact le_trans h1 hkey_le
          · exact le_trans h1 (le_trans hkey_le (hle b hb))
    have hres := hgoal (l2) hK2t hket
    rcases hcase with ⟨_, heq⟩ | ⟨_, heq⟩
    · rw [heq]; exact hres.1
    · rw [heq]; exact hres.2

/-- dup_ok is preserved by list_state_set. -/
theorem list_state_set_dup_ok (l : List DiscoveredItem) (v m : Nat) (hd : dup_ok l) :
    dup_ok (list_state_set l v m) := by
  intro x hx y hy hne hk
  unfold list_state_set at hx hy
  obtain ⟨x0, hx0, rfl⟩ := List.mem_map.1 hx
  obtain ⟨y0, hy0, rfl⟩ := List.mem_map.1 hy
  have hxid : (if x0.id == v then discovered_item_state_set x0 m else x0).id = x0.id := by
    split <;> rfl
  have hyid : (if y0.id == v then discovered_item_state_set y0 m else y0).id = y0.id := by
    split <;> rfl
  have hxk : di_sort_key (if x0.id == v then discovered_item_state_set x0 m else x0)
      = di_sort_key x0 := by split <;> rfl
  have hyk : di_sort_key (if y0.id == v then discovered_item_state_set y0 m else y0)
      = di_sort_key y0 := by split <;> rfl
  have hflag := hd x0 hx0 y0 hy0 (by rw [hxid, hyid] at hne; exact hne)
    (by rw [hxk, hyk] at hk; exact hk)
  split
  · exact get_dup_set_mono x0 m hflag
  · exact hflag

/-- dup_ok is preserved (and extended to the new record) by the insert
walk, on a sorted list of records with distinct ids not colliding with the
new record. -/
theorem insert_list_dup_ok (l : List DiscoveredItem) (di : DiscoveredItem)
    (hids : (l.map DiscoveredItem.id).Nodup)
    (hfresh : ∀ x ∈ l, x.id ≠ di.id)
    (hs : (l.map di_sort_key).Pairwise (· ≤ ·))
    (hd : dup_ok l) :
    dup_ok (discovered_item_insert_list l di) := by
  rcases insert_list_cases l di with ⟨hall, heq⟩ | ⟨l1, e, l2, hsplit, hl1, he, hcase⟩
  · rw [heq]
    intro x hx y hy hne hk
    rcases List.mem_append.1 hx with hx | hx
    · rcases List.mem_append.1 hy with hy | hy
      · exact hd x hx y hy hne hk
      · rw [List.mem_singleton.1 hy] at hk
        exact absurd hk (Nat.ne_of_lt (hall x hx))
    · rcases List.mem_append.1 hy with hy | hy
      · rw [List.mem_singleton.1 hx] at hk
        exact absurd hk.symm (Nat.ne_of_lt (hall y hy))
      · rw [List.mem_singleton.1 hx, List.mem_singleton.1 hy] at hne
        exact absurd rfl hne
  · subst hsplit
    -- facts about ids relative to e
    have hids2 : ∀ x, x ∈ l1 ∨ x ∈ l2 → x.id ≠ e.id := by
      rw [List.map_append, List.map_cons] at hids
      have hperm : ((l1.map DiscoveredItem.id) ++ e.id :: (l2.map DiscoveredItem.id)).Perm
          (e.id :: ((l1.map DiscoveredItem.id) ++ (l2.map DiscoveredItem.id))) :=
        List.perm_middle
      have hnd := hperm.nodup hids
      rw [List.nodup_cons] at hnd
      intro x hx hxe
      apply hnd.1
      rw [← hxe]
      rcases hx with hx | hx
      · exact List.mem_append.2 (Or.inl (List.mem_map_of_mem _ hx))
      · exact List.mem_append.2 (Or.inr (List.mem_map_of_mem _ hx))
    -- keys of l2 relative to e
    have hl2e : ∀ x ∈ l2, di_sort_key e ≤ di_sort_key x := by
      rw [List.map_append, List.pairwise_append] at hs
      have := hs.2.1
      simp only [List.map_cons, List.pairwise_cons] at this
      intro x hx
      exact this.1 _ (List.mem_map_of_mem _ hx)
    have hmem_l : ∀ x, x ∈ l1 ∨ x ∈ l2 → x ∈ l1 ++ e :: l2 := by
      intro x hx
      rcases hx with hx | hx
      · exact List.mem_append.2 (Or.inl hx)
      · exact List.mem_append.2 (Or.inr (List.mem_cons_of_mem _ hx))
    have hmem_e : e ∈ l1 ++ e :: l2 := List.mem_append.2 (Or.inr (List.mem_cons_self _ _))
    -- an old record with the key of di forces key e = key di
    have hold_key : ∀ x, x ∈ l1 ∨ x ∈ l2 → di_sort_key x = di_sort_key di →
        di_sort_key e = di_sort_key di := by
      intro x hx hk
      rcases hx with hx | hx
      · exact absurd hk (Nat.ne_of_lt (hl1 x hx))
      · have h1 := hl2e x hx
        have h2 := Nat.le_of_not_lt he
        omega
    rcases hcase with ⟨hk0, heq⟩ | ⟨hk0, heq⟩
    · -- key e = key di : di and e both get marked
      rw [heq]
      intro x hx y hy hne hk
      rcases List.mem_append.1 hx with hx | hx
      · -- x in l1 (old, unchanged)
        have hx' : x ∈ l1 ∨ x ∈ l2 := Or.inl hx
        rcases List.mem_append.1 hy with hy | hy
        · exact hd x (hmem_l x hx') y (hmem_l y (Or.inl hy)) hne hk
        · rcases List.mem_cons.1 hy with rfl | hy
          · -- y is the marked di : key x = key di = key e, pair x with e
            rw [di_sort_key_state_set] at hk
            exact hd x (hmem_l x hx') e hmem_e (hids2 x hx')
              (hk.trans (hold_key x hx' hk).symm)
          rcases List.mem_cons.1 hy with rfl | hy
          · -- y is the marked e
            rw [di_sort_key_state_set] at hk
            exact hd x (hmem_l x hx') e hmem_e (hids2 x hx') hk
          · exact hd x (hmem_l x hx') y (hmem_l y (Or.inr hy)) hne hk
      · rcases List.mem_cons.1 hx with rfl | hx
        · exact get_dup_set_dup di
        rcases List.mem_cons.1 hx with rfl | hx
        · exact get_dup_set_dup e
        · -- x in l2 (old, unchanged)
          have hx' : x ∈ l1 ∨ x ∈ l2 := Or.inr hx
          rcases List.mem_append.1 hy with hy | hy
          · exact hd x (hmem_l x hx') y (hmem_l y (Or.inl hy)) hne hk
          · rcases List.mem_cons.1 hy with rfl | hy
            · rw [di_sort_key_state_set] at hk
              exact hd x (hmem_l x hx') e hmem_e (hids2 x hx')
                (hk.trans (hold_key x hx' hk).symm)
            rcases List.mem_cons.1 hy with rfl | hy
            · rw [di_sort_key_state_set] at hk
              exact hd x (hmem_l x hx') e hmem_e (hids2 x hx') hk
            · exact hd x (hmem_l x hx') y (hmem_l y (Or.inr hy)) hne hk
    · -- key e ≠ key di : no old record shares the key of di
      rw [heq]
      intro x hx y hy hne hk
      rcases List.mem_append.1 hx with hx | hx
      · have hx' : x ∈ l1 ∨ x ∈ l2 := Or.inl hx
        rcases List.mem_append.1 hy with hy | hy
        · exact hd x (hmem_l x hx') y (hmem_l y (Or.inl hy)) hne hk
        · rcases List.mem_cons.1 hy with hye | hy
          · rw [hye] at hk
            exact absurd (hold_key x hx' hk) hk0
          rcases List.mem_cons.1 hy with hye | hy
          · rw [hye] at hk hne
            exact hd x (hmem_l x hx') e hmem_e hne hk
          · exact hd x (hmem_l x hx') y (hmem_l y (Or.inr hy)) hne hk
      · rcases List.mem_cons.1 hx with hxe | hx
        · -- x is di itself : derive a contradiction from its key partner
          rw [hxe] at hk hne
          rcases List.mem_append.1 hy with hy | hy
          · exact absurd (hold_key y (Or.inl hy) hk.symm) hk0
          · rcases List.mem_cons.1 hy with hye | hy
            · rw [hye] at hne
              exact absurd rfl hne
            rcases List.mem_cons.1 hy with hye | hy
            · rw [hye] at hk
              exact absurd hk.symm hk0
            · exact absurd (hold_key y (Or.inr hy) hk.symm) hk0
        rcases List.mem_cons.1 hx with hxe | hx
        · -- x is e
          rw [hxe] at hk hne ⊢
          rcases List.mem_append.1 hy with hy | hy
          · exact hd e hmem_e y (hmem_l y (Or.inl hy)) hne hk
          · rcases List.mem_cons.1 hy with hye | hy
            · rw [hye] at hk
              exact absurd hk hk0
            rcases List.mem_cons.1 hy with hye | hy
            · rw [hye] at hne
              exact absurd rfl hne
            · exact hd e hmem_e y (hmem_l y (Or.inr hy)) hne hk
        · have hx' : x ∈ l1 ∨ x ∈ l2 := Or.inr hx
          rcases List.mem_append.1 hy with hy | hy
          · exact hd x (hmem_l x hx') y (hmem_l y (Or.inl hy)) hne hk
          · rcases List.mem_cons.1 hy with hye | hy
            · rw [hye] at hk
              exact absurd (hold_key x hx' hk) hk0
            rcases List.mem_cons.1 hy with hye | hy
            · rw [hye] at hk hne
              exact hd x (hmem_l x hx') e hmem_e hne hk
            · exact hd x (hmem_l x hx') y (hmem_l y (Or.inr hy)) hne hk

theorem di_sig_eq {x y : DiscoveredItem} (h : di_sig x = di_sig y) :
    x.id = y.id ∧ di_tuple x = di_tuple y ∧ di_sort_key x = di_sort_key y ∧
      di_hash x = di_hash y := by
  unfold di_sig at h
  simp only [Prod.mk.injEq] at h
  exact h

/-- Every chain can only grow across the miss path. -/
theorem fc_miss_chain_sup (ctx : ToolContext) (ip : IpHdr) (udp : UdpHdr) (h v : Nat)
    (hv : v ∈ ctx.hashIndex h) :
    v ∈ hash_index_set ctx.hashIndex (_compute_stream_hash ip udp) ctx.nextId h := by
  unfold hash_index_set
  by_cases hh : h = _compute_stream_hash ip udp
  · subst hh
    rw [if_pos rfl]
    split
    · exact hv
    · exact List.mem_append.2 (Or.inl hv)
  · rw [if_neg hh]
    exact hv

/-- The registry invariant is preserved across a successful miss-path
insertion (the probed tuple being absent). -/
theorem RegInv_miss (ctx : ToolContext) (inv : RegInv ctx) (ethhdr : Nat)
    (ip : IpHdr) (udp : UdpHdr)
    (hno : ∀ di ∈ ctx.list, di_tuple di ≠ (ip.saddr, udp.uh_sport, ip.daddr, udp.uh_dport)) :
    RegInv (fc_miss_ctx ctx ethhdr ip udp) := by
  have hperm := fc_miss_list_sig_perm ctx ethhdr ip udp
  have hmemL : ∀ y ∈ fc_miss_list ctx ethhdr ip udp,
      di_sig y = di_sig (discovered_item_alloc ctx.nextId ethhdr ip udp) ∨
      ∃ x ∈ ctx.list, di_sig x = di_sig y := by
    intro y hy
    have hmem := hperm.mem_iff.1 (List.mem_map_of_mem di_sig hy)
    rcases List.mem_cons.1 hmem with h | h
    · exact Or.inl h
    · obtain ⟨x, hx, hsx⟩ := List.mem_map.1 h
      exact Or.inr ⟨x, hx, hsx⟩
  have hrev : ∀ s, s = di_sig (discovered_item_alloc ctx.nextId ethhdr ip udp) ∨
      (∃ x ∈ ctx.list, di_sig x = s) →
      ∃ y ∈ fc_miss_list ctx ethhdr ip udp, di_sig y = s := by
    intro s hs
    have hmem : s ∈ di_sig (discovered_item_alloc ctx.nextId ethhdr ip udp) ::
        ctx.list.map di_sig := by
      rcases hs with rfl | ⟨x, hx, rfl⟩
      · exact List.mem_cons_self _ _
      · exact List.mem_cons_of_mem _ (List.mem_map_of_mem di_sig hx)
    have := hperm.symm.mem_iff.1 hmem
    obtain ⟨y, hy, hsy⟩ := List.mem_map.1 this
    exact ⟨y, hy, hsy⟩
  have hfresh_chain := fresh_not_in_chain ctx inv
  have hid_perm : ((fc_miss_list ctx ethhdr ip udp).map DiscoveredItem.id).Perm
      (ctx.nextId :: ctx.list.map DiscoveredItem.id) := by
    have hp := hperm.map (fun s => s.1)
    rw [List.map_map, List.map_cons, List.map_map] at hp
    exact hp
  have htup_perm : ((fc_miss_list ctx ethhdr ip udp).map di_tuple).Perm
      ((ip.saddr, udp.uh_sport, ip.daddr, udp.uh_dport) :: ctx.list.map di_tuple) := by
    have hp := hperm.map (fun s => s.2.1)
    rw [List.map_map, List.map_cons, List.map_map] at hp
    exact hp
  have hallocid : (discovered_item_alloc ctx.nextId ethhdr ip udp).id = ctx.nextId := rfl
  constructor
  -- ids_lt
  · intro di hdi
    rcases hmemL di hdi with h | ⟨x, hx, hsx⟩
    · have h1 := (di_sig_eq h).1
      rw [hallocid] at h1
      show di.id < ctx.nextId + 1
      omega
    · have h1 := (di_sig_eq hsx).1
      have h2 := inv.ids_lt x hx
      show di.id < ctx.nextId + 1
      omega
  -- ids_nodup
  · apply hid_perm.symm.nodup
    rw [List.nodup_cons]
    refine ⟨?_, inv.ids_nodup⟩
    intro hmem
    obtain ⟨x, hx, hid⟩ := List.mem_map.1 hmem
    have := inv.ids_lt x hx
    omega
  -- tuples_nodup
  · apply htup_perm.symm.nodup
    rw [List.nodup_cons]
    refine ⟨?_, inv.tuples_nodup⟩
    intro hmem
    obtain ⟨x, hx, ht⟩ := List.mem_map.1 hmem
    exact hno x hx ht
  -- in_chain
  · intro di hdi
    rcases hmemL di hdi with h | ⟨x, hx, hsx⟩
    · obtain ⟨h1, _, _, h4⟩ := di_sig_eq h
      show di.id ∈ hash_index_set ctx.hashIndex (_compute_stream_hash ip udp) ctx.nextId
        (di_hash di)
      rw [h1, h4]
      show ctx.nextId ∈ hash_index_set ctx.hashIndex (_compute_stream_hash ip udp) ctx.nextId
        (di_hash (discovered_item_alloc ctx.nextId ethhdr ip udp))
      rw [show di_hash (discovered_item_alloc ctx.nextId ethhdr ip udp)
          = _compute_stream_hash ip udp from rfl]
      rw [hash_index_set_self _ _ _ (hfresh_chain _)]
      simp
    · obtain ⟨h1, _, _, h4⟩ := di_sig_eq hsx
      have := inv.in_chain x hx
      show di.id ∈ hash_index_set ctx.hashIndex (_compute_stream_hash ip udp) ctx.nextId
        (di_hash di)
      rw [← h1, ← h4]
      exact fc_miss_chain_sup ctx ip udp _ _ this
  -- chain_sound
  · intro h v hv
    show ∃ di ∈ fc_miss_list ctx ethhdr ip udp, di.id = v ∧ di_hash di = h
    by_cases hh : h = _compute_stream_hash ip udp
    · subst hh
      rw [show (fc_miss_ctx ctx ethhdr ip udp).hashIndex = hash_index_set ctx.hashIndex
          (_compute_stream_hash ip udp) ctx.nextId from rfl,
        hash_index_set_self _ _ _ (hfresh_chain _)] at hv
      rcases List.mem_append.1 hv with hv | hv
      · obtain ⟨x, hx, hxid, hxh⟩ := inv.chain_sound _ v hv
        obtain ⟨y, hy, hsy⟩ := hrev (di_sig x) (Or.inr ⟨x, hx, rfl⟩)
        obtain ⟨h1, _, _, h4⟩ := di_sig_eq hsy
        exact ⟨y, hy, by rw [h1, hxid], by rw [h4, hxh]⟩
      · rw [List.mem_singleton.1 hv]
        obtain ⟨y, hy, hsy⟩ := hrev _ (Or.inl rfl)
        obtain ⟨h1, _, _, h4⟩ := di_sig_eq hsy
        exact ⟨y, hy, h1, h4⟩
    · rw [show (fc_miss_ctx ctx ethhdr ip udp).hashIndex = hash_index_set ctx.hashIndex
          (_compute_stream_hash ip udp) ctx.nextId from rfl,
        hash_index_set_other _ _ _ _ hh] at hv
      obtain ⟨x, hx, hxid, hxh⟩ := inv.chain_sound _ v hv
      obtain ⟨y, hy, hsy⟩ := hrev (di_sig x) (Or.inr ⟨x, hx, rfl⟩)
      obtain ⟨h1, _, _, h4⟩ := di_sig_eq hsy
      exact ⟨y, hy, by rw [h1, hxid], by rw [h4, hxh]⟩
  -- chain_nodup
  · intro h
    show ((hash_index_set ctx.hashIndex (_compute_stream_hash ip udp) ctx.nextId) h).Nodup
    by_cases hh : h = _compute_stream_hash ip udp
    · subst hh
      rw [hash_index_set_self _ _ _ (hfresh_chain _)]
      rw [List.nodup_append]
      refine ⟨inv.chain_nodup _, by simp, ?_⟩
      intro a ha hc
      simp only [List.mem_singleton] at hc
      subst hc
      exact hfresh_chain _ ha
    · rw [hash_index_set_other _ _ _ _ hh]
      exact inv.chain_nodup h
  -- sorted
  · show ((fc_miss_list ctx ethhdr ip udp).map di_sort_key).Pairwise (· ≤ ·)
    unfold fc_miss_list
    by_cases ha : ctx.automaticallyRecordStreams
    · rw [if_pos ha, list_state_set_map_key]
      exact insert_list_sorted _ _ inv.sorted
    · rw [if_neg ha]
      exact insert_list_sorted _ _ inv.sorted
  -- dup_flag
  · show dup_ok (fc_miss_list ctx ethhdr ip udp)
    have hfresh : ∀ x ∈ ctx.list, x.id ≠ (discovered_item_alloc ctx.nextId ethhdr ip udp).id := by
      intro x hx
      have := inv.ids_lt x hx
      show x.id ≠ ctx.nextId
      omega
    have hins := insert_list_dup_ok ctx.list (discovered_item_alloc ctx.nextId ethhdr ip udp)
      inv.ids_nodup hfresh inv.sorted inv.dup_flag
    unfold fc_miss_list
    by_cases ha : ctx.automaticallyRecordStreams
    · rw [if_pos ha]
      exact list_state_set_dup_ok _ _ _ hins
    · rw [if_neg ha]
      exact hins

/-- Characterization of lookup_tuple under the registry invariant. -/
theorem lookup_tuple_some_iff (ctx : ToolContext) (inv : RegInv ctx)
    (t : Nat × Nat × Nat × Nat) (v : Nat) :
    lookup_tuple ctx t = some v ↔ ∃ di ∈ ctx.list, di_tuple di = t ∧ di.id = v := by
  unfold lookup_tuple
  constructor
  · intro h
    cases hf : ctx.list.find? (fun di => decide (di_tuple di = t)) with
    | none => rw [hf] at h; simp at h
    | some y =>
      rw [hf] at h
      simp only [Option.map_some'] at h
      have hy := List.mem_of_find?_eq_some hf
      have hyt : di_tuple y = t := by simpa using List.find?_some hf
      exact ⟨y, hy, hyt, by simpa using h⟩
  · rintro ⟨di, hdi, ht, hv⟩
    cases hf : ctx.list.find? (fun x => decide (di_tuple x = t)) with
    | none =>
      rw [List.find?_eq_none] at hf
      exact absurd (by simpa using ht) (by simpa using hf di hdi)
    | some y =>
      have hy := List.mem_of_find?_eq_some hf
      have hyt : di_tuple y = t := by simpa using List.find?_some hf
      have hEq : y = di := List.inj_on_of_nodup_map inv.tuples_nodup hy hdi (hyt.trans ht.symm)
      simp [hEq, hv]

/-- The invariant only concerns the list, the index, and the id counter, so
the cache-hit counter update keeps it. -/
theorem RegInv_hit (ctx : ToolContext) (inv : RegInv ctx) (n : Nat) :
    RegInv { ctx with cacheHit := n } :=
  ⟨inv.ids_lt, inv.ids_nodup, inv.tuples_nodup, inv.in_chain, inv.chain_sound,
    inv.chain_nodup, inv.sorted, inv.dup_flag⟩

/-- The freshly inserted record is present after the miss path. -/
theorem fc_miss_new_mem (ctx : ToolContext) (ethhdr : Nat) (ip : IpHdr) (udp : UdpHdr) :
    ∃ y ∈ fc_miss_list ctx ethhdr ip udp,
      di_tuple y = (ip.saddr, udp.uh_sport, ip.daddr, udp.uh_dport) ∧ y.id = ctx.nextId := by
  have hperm := fc_miss_list_sig_perm ctx ethhdr ip udp
  have hmem : di_sig (discovered_item_alloc ctx.nextId ethhdr ip udp) ∈
      di_sig (discovered_item_alloc ctx.nextId ethhdr ip udp) :: ctx.list.map di_sig :=
    List.mem_cons_self _ _
  obtain ⟨y, hy, hsy⟩ := List.mem_map.1 (hperm.mem_iff.2 hmem)
  obtain ⟨h1, h2, _, _⟩ := di_sig_eq hsy
  exact ⟨y, hy, by rw [h2]; rfl, by rw [h1]; rfl⟩

/-- Every record survives the miss path with unchanged signature. -/
theorem fc_miss_old_mem (ctx : ToolContext) (ethhdr : Nat) (ip : IpHdr) (udp : UdpHdr)
    (x : DiscoveredItem) (hx : x ∈ ctx.list) :
    ∃ y ∈ fc_miss_list ctx ethhdr ip udp, di_sig y = di_sig x := by
  have hperm := fc_miss_list_sig_perm ctx ethhdr ip udp
  have hmem : di_sig x ∈
      di_sig (discovered_item_alloc ctx.nextId ethhdr ip udp) :: ctx.list.map di_sig :=
    List.mem_cons_of_mem _ (List.mem_map_of_mem di_sig hx)
  obtain ⟨y, hy, hsy⟩ := List.mem_map.1 (hperm.mem_iff.2 hmem)
  exact ⟨y, hy, hsy⟩

/-- Tuples after the miss path: the new tuple or an old one. -/
theorem fc_miss_tuple_mem (ctx : ToolContext) (ethhdr : Nat) (ip : IpHdr) (udp : UdpHdr)
    (y : DiscoveredItem) (hy : y ∈ fc_miss_list ctx ethhdr ip udp) :
    di_tuple y = (ip.saddr, udp.uh_sport, ip.daddr, udp.uh_dport) ∨
      di_tuple y ∈ ctx.list.map di_tuple := by
  have hperm := fc_miss_list_sig_perm ctx ethhdr ip udp
  have hmem := hperm.mem_iff.1 (List.mem_map_of_mem di_sig hy)
  rcases List.mem_cons.1 hmem with h | h
  · obtain ⟨_, h2, _, _⟩ := di_sig_eq h.symm
    exact Or.inl (by rw [← h2]; rfl)
  · obtain ⟨x, hx, hsx⟩ := List.mem_map.1 h
    obtain ⟨_, h2, _, _⟩ := di_sig_eq hsx
    exact Or.inr (by rw [← h2]; exact List.mem_map_of_mem di_tuple hx)

/-- Existing lookups survive the miss path. -/
theorem lookup_miss_pres (ctx : ToolContext) (inv : RegInv ctx) (ethhdr : Nat)
    (ip : IpHdr) (udp : UdpHdr)
    (hno : ∀ di ∈ ctx.list, di_tuple di ≠ (ip.saddr, udp.uh_sport, ip.daddr, udp.uh_dport))
    (t : Nat × Nat × Nat × Nat) (v : Nat) (h : lookup_tuple ctx t = some v) :
    lookup_tuple (fc_miss_ctx ctx ethhdr ip udp) t = some v := by
  rw [lookup_tuple_some_iff ctx inv] at h
  obtain ⟨di, hdi, ht, hv⟩ := h
  rw [lookup_tuple_some_iff _ (RegInv_miss ctx inv ethhdr ip udp hno)]
  obtain ⟨y, hy, hsy⟩ := fc_miss_old_mem ctx ethhdr ip udp di hdi
  obtain ⟨h1, h2, _, _⟩ := di_sig_eq hsy
  exact ⟨y, hy, h2.trans ht, h1.trans hv⟩

/-- The new tuple is looked up as the fresh id after the miss path. -/
theorem lookup_miss_new (ctx : ToolContext) (inv : RegInv ctx) (ethhdr : Nat)
    (ip : IpHdr) (udp : UdpHdr)
    (hno : ∀ di ∈ ctx.list, di_tuple di ≠ (ip.saddr, udp.uh_sport, ip.daddr, udp.uh_dport)) :
    lookup_tuple (fc_miss_ctx ctx ethhdr ip udp)
      (ip.saddr, udp.uh_sport, ip.daddr, udp.uh_dport) = some ctx.nextId := by
  rw [lookup_tuple_some_iff _ (RegInv_miss ctx inv ethhdr ip udp hno)]
  obtain ⟨y, hy, h1, h2⟩ := fc_miss_new_mem ctx ethhdr ip udp
  exact ⟨y, hy, h1, h2⟩

/-- Main induction over a capture run: the invariant holds, one result per
packet, established lookups persist, records stem from the packets, and
the i-th result is the final lookup of the i-th packet's tuple (present). -/
theorem run_spec (ps : List Packet) : ∀ ctx : ToolContext, RegInv ctx →
    RegInv (run_findcreate ctx ps).1 ∧
    (run_findcreate ctx ps).2.length = ps.length ∧
    (∀ t v, lookup_tuple ctx t = some v → lookup_tuple (run_findcreate ctx ps).1 t = some v) ∧
    (∀ di ∈ (run_findcreate ctx ps).1.list,
      di_tuple di ∈ ctx.list.map di_tuple ∨ di_tuple di ∈ ps.map packet_tuple) ∧
    (∀ i p, ps.get? i = some p →
      (run_findcreate ctx ps).2.get? i =
        some (lookup_tuple (run_findcreate ctx ps).1 (packet_tuple p)) ∧
      lookup_tuple (run_findcreate ctx ps).1 (packet_tuple p) ≠ none) := by
  induction ps with
  | nil =>
    intro ctx inv
    refine ⟨inv, rfl, fun t v h => h, fun di hdi => Or.inl (List.mem_map_of_mem _ hdi), ?_⟩
    intro i p hp
    simp at hp
  | cons p ps ih =>
    intro ctx inv
    cases hl : fc_lookup ctx p.ip p.udp with
    | some v =>
      have hstep := findcreate_hit_eq ctx p.ethhdr p.ip p.udp v hl
      have hrun : run_findcreate ctx (p :: ps) =
          ((run_findcreate { ctx with cacheHit := ctx.cacheHit + 1 } ps).1,
            some v :: (run_findcreate { ctx with cacheHit := ctx.cacheHit + 1 } ps).2) := by
        simp only [run_findcreate, hstep]
      have inv1 := RegInv_hit ctx inv (ctx.cacheHit + 1)
      obtain ⟨ihinv, ihlen, ihpres, ihprov, ihres⟩ :=
        ih { ctx with cacheHit := ctx.cacheHit + 1 } inv1
      have hlk_eq : ∀ t, lookup_tuple { ctx with cacheHit := ctx.cacheHit + 1 } t =
          lookup_tuple ctx t := fun t => rfl
      have hcur : lookup_tuple ctx (packet_tuple p) = some v := by
        obtain ⟨di, hdi, hid, ht⟩ := fc_lookup_sound ctx p.ip p.udp v hl
        rw [lookup_tuple_some_iff ctx inv]
        exact ⟨di, hdi, ht, hid⟩
      rw [hrun]
      refine ⟨ihinv, by simp [ihlen], ?_, ?_, ?_⟩
      · intro t w h
        exact ihpres t w (by rw [hlk_eq]; exact h)
      · intro di hdi
        rcases ihprov di hdi with h | h
        · exact Or.inl h
        · exact Or.inr (List.mem_cons_of_mem _ h)
      · intro i q hq
        cases i with
        | zero =>
          simp only [List.get?_cons_zero, Option.some.injEq] at hq
          subst hq
          have hfin : lookup_tuple (run_findcreate { ctx with cacheHit := ctx.cacheHit + 1 } ps).1
              (packet_tuple p) = some v :=
            ihpres _ _ (by rw [hlk_eq]; exact hcur)
          refine ⟨?_, ?_⟩
          · simp [hfin]
          · simp [hfin]
        | succ n =>
          simp only [List.get?_cons_succ] at hq
          exact ihres n q hq
    | none =>
      have hno : ∀ di ∈ ctx.list,
          di_tuple di ≠ (p.ip.saddr, p.udp.uh_sport, p.ip.daddr, p.udp.uh_dport) :=
        fun di hdi ht => fc_lookup_complete ctx inv p.ip p.udp di hdi ht hl
      have hstep := findcreate_miss_eq ctx p.ethhdr p.ip p.udp hl
      have hrun : run_findcreate ctx (p :: ps) =
          ((run_findcreate (fc_miss_ctx ctx p.ethhdr p.ip p.udp) ps).1,
            some ctx.nextId :: (run_findcreate (fc_miss_ctx ctx p.ethhdr p.ip p.udp) ps).2) := by
        simp only [run_findcreate, hstep]
      have inv1 := RegInv_miss ctx inv p.ethhdr p.ip p.udp hno
      obtain ⟨ihinv, ihlen, ihpres, ihprov, ihres⟩ :=
        ih (fc_miss_ctx ctx p.ethhdr p.ip p.udp) inv1
      have htupP : packet_tuple p = (p.ip.saddr, p.udp.uh_sport, p.ip.daddr, p.udp.uh_dport) := rfl
      rw [hrun]
      refine ⟨ihinv, by simp [ihlen], ?_, ?_, ?_⟩
      · intro t w h
        exact ihpres t w (lookup_miss_pres ctx inv p.ethhdr p.ip p.udp hno t w h)
      · intro di hdi
        rcases ihprov di hdi with h | h
        · have h' : di_tuple di ∈ (fc_miss_list ctx p.ethhdr p.ip p.udp).map di_tuple := h
          obtain ⟨y, hy, hyt⟩ := List.mem_map.1 h'
          rcases fc_miss_tuple_mem ctx p.ethhdr p.ip p.udp y hy with h2 | h2
          · exact Or.inr (by rw [List.map_cons, ← hyt, h2, ← htupP]; exact List.mem_cons_self _ _)
          · exact Or.inl (by rw [← hyt]; exact h2)
        · exact Or.inr (List.mem_cons_of_mem _ h)
      · intro i q hq
        cases i with
        | zero =>
          simp only [List.get?_cons_zero, Option.some.injEq] at hq
          subst hq
          have hfin : lookup_tuple (run_findcreate (fc_miss_ctx ctx p.ethhdr p.ip p.udp) ps).1
              (packet_tuple p) = some ctx.nextId :=
            ihpres _ _ (by rw [htupP]; exact lookup_miss_new ctx inv p.ethhdr p.ip p.udp hno)
          refine ⟨by simp [hfin], by simp [hfin]⟩
        | succ n =>
          simp only [List.get?_cons_succ] at hq
          exact ihres n q hq

/-- The freshly initialized registry satisfies the invariant. -/
theorem RegInv_init (auto : Bool) : RegInv (init_ctx auto) := by
  constructor <;> simp [init_ctx, dup_ok]

/-- C1: two findcreate calls of a run (all allocations succeeding) return
the same record pointer exactly when their 4-tuples coincide. -/
theorem C1_findcreate_tuple_identity (auto : Bool) (ps : List Packet) (i j : Nat)
    (pi pj : Packet) (hi : ps.get? i = some pi) (hj : ps.get? j = some pj) :
    ((run_findcreate (init_ctx auto) ps).2.get? i =
        (run_findcreate (init_ctx auto) ps).2.get? j ↔
      packet_tuple pi = packet_tuple pj) := by
  obtain ⟨finv, flen, fpres, fprov, fres⟩ := run_spec ps (init_ctx auto) (RegInv_init auto)
  obtain ⟨hgi, hsi⟩ := fres i pi hi
  obtain ⟨hgj, hsj⟩ := fres j pj hj
  rw [hgi, hgj]
  constructor
  · intro h
    have heq : lookup_tuple (run_findcreate (init_ctx auto) ps).1 (packet_tuple pi) =
        lookup_tuple (run_findcreate (init_ctx auto) ps).1 (packet_tuple pj) := by
      simpa using h
    cases hv : lookup_tuple (run_findcreate (init_ctx auto) ps).1 (packet_tuple pi) with
    | none => exact absurd hv hsi
    | some v =>
      have hv2 : lookup_tuple (run_findcreate (init_ctx auto) ps).1 (packet_tuple pj)
          = some v := by rw [← heq, hv]
      rw [lookup_tuple_some_iff _ finv] at hv hv2
      obtain ⟨d1, hd1, ht1, hid1⟩ := hv
      obtain ⟨d2, hd2, ht2, hid2⟩ := hv2
      have hdd : d1 = d2 :=
        List.inj_on_of_nodup_map finv.ids_nodup hd1 hd2 (hid1.trans hid2.symm)
      rw [← ht1, ← ht2, hdd]
  · intro h
    rw [h]

/-- The ordering key asserted by the spec sentence under test in C3: the
destination port converted to host order. -/
def spec_claim_key (di : DiscoveredItem) : Nat :=
  ((ntohl di.iphdr.daddr) <<< 16) ||| ntohs di.udphdr.uh_dport

/-- Packet to 10.0.0.1:4001 (fields in network byte order). -/
def pC3a : Packet :=
  { ethhdr := 0, ip := { saddr := 16777226, daddr := 16777226 },
    udp := { uh_sport := 41231, uh_dport := 41231 } }

/-- Packet to 10.0.0.1:4002. -/
def pC3b : Packet :=
  { ethhdr := 0, ip := { saddr := 16777226, daddr := 16777226 },
    udp := { uh_sport := 41231, uh_dport := 41487 } }

/-- Packet to 10.0.0.1:4352 (network byte order 0x0011 = 17). -/
def pC3c : Packet :=
  { ethhdr := 0, ip := { saddr := 16777226, daddr := 16777226 },
    udp := { uh_sport := 41231, uh_dport := 17 } }

/-- C3 counterexample: after inserting flows to ports 4001 then 4352 of
the same destination address, the list is NOT sorted by the claim's key
(ntohl(dstIP) << 16) | host-order-dstPort: the source compares the port in
network byte order, and htons(4352) = 17 < htons(4001) = 41231. -/
theorem C3_counterexample :
    ¬ (((run_findcreate (init_ctx false) [pC3a, pC3c]).1.list.map spec_claim_key).Pairwise
      (· ≤ ·)) := by
  decide

/-- C3 amended: after any run the list is sorted ascending by the key the
source actually computes, (uint64)ntohl(dstIP) << 16 | dstPort with the
port in network byte order; the spec's 4001-then-4002 scenario still
yields host-order list [4001, 4002] because htons is monotone there. -/
theorem C3_sorted_amended (auto : Bool) (ps : List Packet) :
    (((run_findcreate (init_ctx auto) ps).1.list.map di_sort_key).Pairwise (· ≤ ·)) ∧
    ((run_findcreate (init_ctx false) [pC3a, pC3b]).1.list.map
      (fun di => ntohs di.udphdr.uh_dport)) = [4001, 4002] := by
  refine ⟨(run_spec ps (init_ctx auto) (RegInv_init auto)).1.sorted, by decide⟩

/-- C5: after any run, two distinct records sharing (dstIP, dstPort) both
carry DST_DUPLICATE. -/
theorem C5_dst_duplicate (auto : Bool) (ps : List Packet) :
    ∀ r1 ∈ (run_findcreate (init_ctx auto) ps).1.list,
    ∀ r2 ∈ (run_findcreate (init_ctx auto) ps).1.list,
      r1.id ≠ r2.id → r1.iphdr.daddr = r2.iphdr.daddr →
      r1.udphdr.uh_dport = r2.udphdr.uh_dport →
      discovered_item_state_get r1 DI_STATE_DST_DUPLICATE ≠ 0 ∧
      discovered_item_state_get r2 DI_STATE_DST_DUPLICATE ≠ 0 := by
  intro r1 h1 r2 h2 hne hd hp
  have finv := (run_spec ps (init_ctx auto) (RegInv_init auto)).1
  have hkey : di_sort_key r1 = di_sort_key r2 := by
    unfold di_sort_key
    rw [hd, hp]
  exact ⟨finv.dup_flag r1 h1 r2 h2 hne hkey, finv.dup_flag r2 h2 r1 h1 hne.symm hkey.symm⟩

/-- C1 witness: a run with a repeated 4-tuple; the first and third results
agree because the tuples agree. -/
theorem C1_findcreate_tuple_identity_witness :
    ((run_findcreate (init_ctx false) [pC3a, pC3b, pC3a]).2.get? 0 =
        (run_findcreate (init_ctx false) [pC3a, pC3b, pC3a]).2.get? 2 ↔
      packet_tuple pC3a = packet_tuple pC3a) :=
  C1_findcreate_tuple_identity false [pC3a, pC3b, pC3a] 0 2 pC3a pC3a rfl rfl

/-- Second flow to 10.0.0.1:4001 from a different source (10.0.0.2). -/
def pC5 : Packet :=
  { ethhdr := 0, ip := { saddr := 33554442, daddr := 16777226 },
    udp := { uh_sport := 41231, uh_dport := 41231 } }

/-- The two records of the C5 scenario, as they stand in the final list. -/
def diC5a : DiscoveredItem :=
  { id := 1, ethhdr := 0, iphdr := { saddr := 33554442, daddr := 16777226 },
    udphdr := { uh_sport := 41231, uh_dport := 41231 }, state := 1,
    iat_lwm_us := 50000000, iat_hwm_us := -1, iat_cur_us := 0 }

def diC5b : DiscoveredItem :=
  { id := 0, ethhdr := 0, iphdr := { saddr := 16777226, daddr := 16777226 },
    udphdr := { uh_sport := 41231, uh_dport := 41231 }, state := 1,
    iat_lwm_us := 50000000, iat_hwm_us := -1, iat_cur_us := 0 }

/-- C5 witness: two flows sharing (dstIP, dstPort) with distinct sources
both end up flagged DST_DUPLICATE. -/
theorem C5_dst_duplicate_witness :
    discovered_item_state_get diC5a DI_STATE_DST_DUPLICATE ≠ 0 ∧
    discovered_item_state_get diC5b DI_STATE_DST_DUPLICATE ≠ 0 :=
  C5_dst_duplicate false [pC3a, pC5] diC5a (by decide) diC5b (by decide)
    (by decide) rfl rfl

/-- ntohs is injective on 16-bit values. -/
theorem ntohs_inj (a b : Nat) (ha : a < 65536) (hb : b < 65536) (h : ntohs a = ntohs b) :
    a = b := by
  unfold ntohs at h
  omega

/-- ntohs of a byte swap is the original 16-bit value. -/
theorem ntohs_ntohs (a : Nat) (ha : a < 65536) : ntohs (ntohs a) = a := by
  unfold ntohs
  have h2 : a / 256 % 256 = a / 256 := Nat.mod_eq_of_lt (by omega)
  rw [h2]
  have h3 : (a % 256 * 256 + a / 256) % 256 = a / 256 := by omega
  have h4 : (a % 256 * 256 + a / 256) / 256 = a % 256 := by omega
  rw [h3, h4]
  omega

/-- Under distinct ids, dereferencing a member id finds that member. -/
theorem di_find_of_mem (l : List DiscoveredItem)
    (hnodup : (l.map DiscoveredItem.id).Nodup) (di : DiscoveredItem) (hdi : di ∈ l) :
    di_find l di.id = some di := by
  unfold di_find
  cases hf : l.find? (fun x => x.id == di.id) with
  | none =>
    rw [List.find?_eq_none] at hf
    exact absurd (by simp : (di.id == di.id) = true) (hf di hdi)
  | some y =>
    have hy := List.mem_of_find?_eq_some hf
    have hyid : y.id = di.id := by simpa using List.find?_some hf
    rw [List.inj_on_of_nodup_map hnodup hy hdi hyid]

/-- The low nibble of the stream hash is the low nibble of the port. -/
theorem cal_hash_mod16 (A P : Nat) : hash_index_cal_hash A P % 16 = P % 16 := by
  unfold hash_index_cal_hash
  have e1 : ∀ x : Nat, x % 16 = x &&& 15 := by
    intro x
    have h := Nat.and_pow_two_sub_one_eq_mod x 4
    norm_num at h
    omega
  rw [e1, e1]
  rw [Nat.and_distrib_right, Nat.and_assoc, Nat.and_assoc]
  simp only [(by decide : (65520 &&& 15 : Nat) = 0), (by decide : (15 &&& 15 : Nat) = 15),
    Nat.and_zero, Nat.zero_or]

/-- Among 256 contiguous candidate ports, at most 16 share any hash value. -/
theorem ports_per_hash (A p0 h : Nat) :
    ((List.range 256).filter (fun i => hash_index_cal_hash A (p0 + i) = h)).length ≤ 16 := by
  have himp : ∀ i : Nat, hash_index_cal_hash A (p0 + i) = h →
      i % 16 = (h % 16 + 16 - p0 % 16) % 16 := by
    intro i hi
    have hm := cal_hash_mod16 A (p0 + i)
    rw [hi] at hm
    omega
  have hsub : List.Sublist
      ((List.range 256).filter (fun i => hash_index_cal_hash A (p0 + i) = h))
      ((List.range 256).filter (fun i => i % 16 = (h % 16 + 16 - p0 % 16) % 16)) := by
    apply List.monotone_filter_right
    intro a ha
    simp only [decide_eq_true_eq] at ha ⊢
    exact himp a ha
  have hlen := hsub.length_le
  have h16 : ∀ c < 16, ((List.range 256).filter (fun i => i % 16 = c)).length = 16 := by decide
  have hc : (h % 16 + 16 - p0 % 16) % 16 < 16 := by omega
  rw [h16 _ hc] at hlen
  exact hlen

/-- After a run whose packets share source and destination address and
whose destination ports (host order) lie in one 256-port window, every
hash-index chain has at most 16 entries. -/
theorem C6_chain_le (auto : Bool) (S SP D p0 : Nat) (ps : List Packet)
    (hfields : ∀ p ∈ ps, p.ip.saddr = S ∧ p.udp.uh_sport = SP ∧ p.ip.daddr = D ∧
      p.udp.uh_dport < 65536)
    (hports : ∀ p ∈ ps, p0 ≤ ntohs p.udp.uh_dport ∧ ntohs p.udp.uh_dport < p0 + 256) :
    ∀ h, ((run_findcreate (init_ctx auto) ps).1.hashIndex h).length ≤ 16 := by
  intro h
  obtain ⟨finv, -, -, fprov, -⟩ := run_spec ps (init_ctx auto) (RegInv_init auto)
  set F := (run_findcreate (init_ctx auto) ps).1 with hF
  have hrec : ∀ v ∈ F.hashIndex h, ∃ r ∈ F.list,
      di_find F.list v = some r ∧ r.id = v ∧ di_hash r = h := by
    intro v hv
    obtain ⟨r, hr, hrid, hrh⟩ := finv.chain_sound h v hv
    refine ⟨r, hr, ?_, hrid, hrh⟩
    rw [← hrid]
    exact di_find_of_mem F.list finv.ids_nodup r hr
  have hrfields : ∀ r ∈ F.list, r.iphdr.saddr = S ∧ r.udphdr.uh_sport = SP ∧
      r.iphdr.daddr = D ∧ r.udphdr.uh_dport < 65536 ∧
      p0 ≤ ntohs r.udphdr.uh_dport ∧ ntohs r.udphdr.uh_dport < p0 + 256 := by
    intro r hr
    rcases fprov r hr with habs | hmem
    · simp [init_ctx] at habs
    · obtain ⟨p, hp, ht⟩ := List.mem_map.1 hmem
      obtain ⟨f1, f2, f3, f4⟩ := hfields p hp
      obtain ⟨g1, g2⟩ := hports p hp
      unfold packet_tuple di_tuple at ht
      simp only [Prod.mk.injEq] at ht
      obtain ⟨t1, t2, t3, t4⟩ := ht
      refine ⟨by rw [← t1, f1], by rw [← t2, f2], by rw [← t3, f3],
        by rw [← t4]; exact f4, by rw [← t4]; exact g1, by rw [← t4]; exact g2⟩
  set pf : Nat → Nat := fun v =>
    match di_find F.list v with
    | some r => ntohs r.udphdr.uh_dport
    | none => 0 with hpf
  have hval : ∀ v ∈ F.hashIndex h, ∃ r ∈ F.list, r.id = v ∧ di_hash r = h ∧
      pf v = ntohs r.udphdr.uh_dport := by
    intro v hv
    obtain ⟨r, hr, hfind, hrid, hrh⟩ := hrec v hv
    refine ⟨r, hr, hrid, hrh, ?_⟩
    simp only [hpf]
    rw [hfind]
  have hinj : ∀ v1 ∈ F.hashIndex h, ∀ v2 ∈ F.hashIndex h, pf v1 = pf v2 → v1 = v2 := by
    intro v1 h1 v2 h2 hpe
    obtain ⟨r1, hr1, hid1, -, he1⟩ := hval v1 h1
    obtain ⟨r2, hr2, hid2, -, he2⟩ := hval v2 h2
    obtain ⟨a1, b1, c1, d1, -, -⟩ := hrfields r1 hr1
    obtain ⟨a2, b2, c2, d2, -, -⟩ := hrfields r2 hr2
    have hw : r1.udphdr.uh_dport = r2.udphdr.uh_dport := by
      apply ntohs_inj _ _ d1 d2
      rw [← he1, ← he2, hpe]
    have htup : di_tuple r1 = di_tuple r2 := by
      unfold di_tuple
      rw [a1, a2, b1, b2, c1, c2, hw]
    have hre := List.inj_on_of_nodup_map finv.tuples_nodup hr1 hr2 htup
    rw [← hid1, ← hid2, hre]
  have hnd : ((F.hashIndex h).map pf).Nodup :=
    List.Nodup.map_on hinj (finv.chain_nodup h)
  have hsub2 : ∀ q ∈ (F.hashIndex h).map pf, p0 ≤ q ∧ q < p0 + 256 ∧
      hash_index_cal_hash (ntohl D) q = h := by
    intro q hq
    obtain ⟨v, hv, hqe⟩ := List.mem_map.1 hq
    obtain ⟨r, hr, hid, hrh, he⟩ := hval v hv
    obtain ⟨-, -, c1, -, g1, g2⟩ := hrfields r hr
    subst hqe
    rw [he]
    refine ⟨g1, g2, ?_⟩
    rw [← hrh]
    unfold di_hash _compute_stream_hash
    rw [c1]
  set QL := ((F.hashIndex h).map pf).map (fun q => q - p0) with hQL
  have hndQ : QL.Nodup := by
    apply List.Nodup.map_on ?_ hnd
    intro x hx y hy hxy
    have hx1 := (hsub2 x hx).1
    have hy1 := (hsub2 y hy).1
    omega
  have hsubQ : ∀ i ∈ QL, i ∈ (List.range 256).filter
      (fun i => hash_index_cal_hash (ntohl D) (p0 + i) = h) := by
    intro i hi
    obtain ⟨q, hq, hqe⟩ := List.mem_map.1 hi
    obtain ⟨g1, g2, g3⟩ := hsub2 q hq
    subst hqe
    rw [List.mem_filter]
    refine ⟨by rw [List.mem_range]; omega, ?_⟩
    simp only [decide_eq_true_eq]
    rw [show p0 + (q - p0) = q by omega]
    exact g3
  have hlen1 : (F.hashIndex h).length = QL.length := by simp [hQL]
  have hcard : QL.length ≤ ((List.range 256).filter
      (fun i => hash_index_cal_hash (ntohl D) (p0 + i) = h)).length := by
    calc QL.length = QL.toFinset.card := (List.toFinset_card_of_nodup hndQ).symm
    _ ≤ ((List.range 256).filter
        (fun i => hash_index_cal_hash (ntohl D) (p0 + i) = h)).toFinset.card := by
      apply Finset.card_le_card
      intro i hi
      rw [List.mem_toFinset] at hi ⊢
      exact hsubQ i hi
    _ ≤ _ := List.toFinset_card_le _
  have hph := ports_per_hash (ntohl D) p0 h
  omega

/-- A run whose packets all have known tuples only produces cache hits:
cacheMiss does not move and every returned pointer is non-null. -/
theorem run_all_hits (ps : List Packet) : ∀ ctx : ToolContext, RegInv ctx →
    (∀ p ∈ ps, lookup_tuple ctx (packet_tuple p) ≠ none) →
    (run_findcreate ctx ps).1.cacheMiss = ctx.cacheMiss ∧
    (∀ r ∈ (run_findcreate ctx ps).2, r.isSome) := by
  induction ps with
  | nil =>
    intro ctx inv hall
    exact ⟨rfl, by simp [run_findcreate]⟩
  | cons p ps ih =>
    intro ctx inv hall
    have h0 := hall p (List.mem_cons_self _ _)
    cases hv : lookup_tuple ctx (packet_tuple p) with
    | none => exact absurd hv h0
    | some v =>
      cases hfc : fc_lookup ctx p.ip p.udp with
      | none =>
        rw [lookup_tuple_some_iff ctx inv] at hv
        obtain ⟨di, hdi, ht, -⟩ := hv
        exact absurd hfc (fc_lookup_complete ctx inv p.ip p.udp di hdi ht)
      | some w =>
        have hstep := findcreate_hit_eq ctx p.ethhdr p.ip p.udp w hfc
        have hrun : run_findcreate ctx (p :: ps) =
            ((run_findcreate { ctx with cacheHit := ctx.cacheHit + 1 } ps).1,
              some w :: (run_findcreate { ctx with cacheHit := ctx.cacheHit + 1 } ps).2) := by
          simp only [run_findcreate, hstep]
        have inv1 := RegInv_hit ctx inv (ctx.cacheHit + 1)
        have hall1 : ∀ q ∈ ps, lookup_tuple { ctx with cacheHit := ctx.cacheHit + 1 }
            (packet_tuple q) ≠ none := fun q hq => hall q (List.mem_cons_of_mem _ hq)
        obtain ⟨ihm, ihr⟩ := ih { ctx with cacheHit := ctx.cacheHit + 1 } inv1 hall1
        rw [hrun]
        refine ⟨ihm, ?_⟩
        intro r hr
        rcases List.mem_cons.1 hr with rfl | hr
        · rfl
        · exact ihr r hr

/-- C6: with a fixed destination address and source, and destination
ports inside one 256-port window, the hash spreads the flows so that (a)
at most 16 of the 256 candidate ports share any hash value, (b) no hash
chain exceeds 16 entries after the first pass, and (c) a second identical
pass adds no cache miss and finds every record. -/
theorem C6_hash_spread (auto : Bool) (S SP D p0 : Nat) (ps : List Packet)
    (hfields : ∀ p ∈ ps, p.ip.saddr = S ∧ p.udp.uh_sport = SP ∧ p.ip.daddr = D ∧
      p.udp.uh_dport < 65536)
    (hports : ∀ p ∈ ps, p0 ≤ ntohs p.udp.uh_dport ∧ ntohs p.udp.uh_dport < p0 + 256) :
    (∀ A h2, ((List.range 256).filter
        (fun i => hash_index_cal_hash A (p0 + i) = h2)).length ≤ 16) ∧
    (∀ h, ((run_findcreate (init_ctx auto) ps).1.hashIndex h).length ≤ 16) ∧
    (run_findcreate (run_findcreate (init_ctx auto) ps).1 ps).1.cacheMiss =
      (run_findcreate (init_ctx auto) ps).1.cacheMiss ∧
    (∀ r ∈ (run_findcreate (run_findcreate (init_ctx auto) ps).1 ps).2, r.isSome) := by
  obtain ⟨finv, -, -, -, fres⟩ := run_spec ps (init_ctx auto) (RegInv_init auto)
  have hall : ∀ p ∈ ps, lookup_tuple (run_findcreate (init_ctx auto) ps).1
      (packet_tuple p) ≠ none := by
    intro p hp
    obtain ⟨i, hi⟩ := List.mem_iff_get?.1 hp
    exact (fres i p hi).2
  obtain ⟨hm, hr⟩ := run_all_hits ps (run_findcreate (init_ctx auto) ps).1 finv hall
  exact ⟨fun A h2 => ports_per_hash A p0 h2,
    C6_chain_le auto S SP D p0 ps hfields hports, hm, hr⟩

/-- Flow to 10.0.0.1:4000 (port 4000 in network order is 40975). -/
def pC6a : Packet :=
  { ethhdr := 0, ip := { saddr := 16777226, daddr := 16777226 },
    udp := { uh_sport := 41231, uh_dport := 40975 } }

/-- Flow to 10.0.0.1:4001. -/
def pC6b : Packet :=
  { ethhdr := 0, ip := { saddr := 16777226, daddr := 16777226 },
    udp := { uh_sport := 41231, uh_dport := 41231 } }

/-- C6 witness: two flows with ports 4000 and 4001 of the window starting
at 4000. -/
theorem C6_hash_spread_witness :
    (∀ A h2, ((List.range 256).filter
        (fun i => hash_index_cal_hash A (4000 + i) = h2)).length ≤ 16) ∧
    (∀ h, ((run_findcreate (init_ctx false) [pC6a, pC6b]).1.hashIndex h).length ≤ 16) ∧
    (run_findcreate (run_findcreate (init_ctx false) [pC6a, pC6b]).1 [pC6a, pC6b]).1.cacheMiss =
      (run_findcreate (init_ctx false) [pC6a, pC6b]).1.cacheMiss ∧
    (∀ r ∈ (run_findcreate (run_findcreate (init_ctx false) [pC6a, pC6b]).1
        [pC6a, pC6b]).2, r.isSome) :=
  C6_hash_spread false 16777226 41231 16777226 4000 [pC6a, pC6b] (by decide) (by decide)

/-- C10 witness: the video-preset histogram with an aggregate of 5 ms;
both parts of the frame condition are exercised at the in-range aggregate. -/
theorem C10_cumulative_finalize_frame_witness :
    (ltn_histogram_cumulative_finalize { histVideo with cumulativeMs := 5 }
        { sec := 0, usec := 0 }).1.cumulativeMs = ({ histVideo with cumulativeMs := 5 } : Histogram).cumulativeMs ∧
    (ltn_histogram_cumulative_finalize { histVideo with cumulativeMs := 5 }
        { sec := 0, usec := 0 }).2 = ({ histVideo with cumulativeMs := 5 } : Histogram).cumulativeMs ∧
    (ltn_histogram_cumulative_initialise
        { histVideo with cumulativeMs := 5 }).cumulativeMs = 0 ∧
    (ltn_histogram_reset { histVideo with cumulativeMs := 5 }
        { sec := 0, usec := 0 }).cumulativeMs = 0 ∧
    (¬(({ histVideo with cumulativeMs := 5 } : Histogram).cumulativeMs <
          ({ histVideo with cumulativeMs := 5 } : Histogram).minValMs ∨
        ({ histVideo with cumulativeMs := 5 } : Histogram).cumulativeMs >
          ({ histVideo with cumulativeMs := 5 } : Histogram).maxValMs) →
      (ltn_histogram_cumulative_finalize
          (ltn_histogram_cumulative_finalize { histVideo with cumulativeMs := 5 }
            { sec := 0, usec := 0 }).1 { sec := 0, usec := 0 }).1.buckets
          (({ histVideo with cumulativeMs := 5 } : Histogram).cumulativeMs -
            ({ histVideo with cumulativeMs := 5 } : Histogram).minValMs) =
        ({ histVideo with cumulativeMs := 5 } : Histogram).buckets
          (({ histVideo with cumulativeMs := 5 } : Histogram).cumulativeMs -
            ({ histVideo with cumulativeMs := 5 } : Histogram).minValMs) + 2 ∧
      (ltn_histogram_cumulative_finalize
          (ltn_histogram_cumulative_finalize { histVideo with cumulativeMs := 5 }
            { sec := 0, usec := 0 }).1 { sec := 0, usec := 0 }).1.bucketMissCount =
        ({ histVideo with cumulativeMs := 5 } : Histogram).bucketMissCount ∧
      ∀ i, i ≠ ({ histVideo with cumulativeMs := 5 } : Histogram).cumulativeMs -
          ({ histVideo with cumulativeMs := 5 } : Histogram).minValMs →
        (ltn_histogram_cumulative_finalize
            (ltn_histogram_cumulative_finalize { histVideo with cumulativeMs := 5 }
              { sec := 0, usec := 0 }).1 { sec := 0, usec := 0 }).1.buckets i =
          ({ histVideo with cumulativeMs := 5 } : Histogram).buckets i) ∧
    ((({ histVideo with cumulativeMs := 5 } : Histogram).cumulativeMs <
          ({ histVideo with cumulativeMs := 5 } : Histogram).minValMs ∨
        ({ histVideo with cumulativeMs := 5 } : Histogram).cumulativeMs >
          ({ histVideo with cumulativeMs := 5 } : Histogram).maxValMs) →
      (ltn_histogram_cumulative_finalize
          (ltn_histogram_cumulative_finalize { histVideo with cumulativeMs := 5 }
            { sec := 0, usec := 0 }).1 { sec := 0, usec := 0 }).1.bucketMissCount =
        ({ histVideo with cumulativeMs := 5 } : Histogram).bucketMissCount + 2 ∧
      ∀ i, (ltn_histogram_cumulative_finalize
          (ltn_histogram_cumulative_finalize { histVideo with cumulativeMs := 5 }
            { sec := 0, usec := 0 }).1 { sec := 0, usec := 0 }).1.buckets i =
        ({ histVideo with cumulativeMs := 5 } : Histogram).buckets i) :=
  C10_cumulative_finalize_frame { histVideo with cumulativeMs := 5 }
    { sec := 0, usec := 0 } { sec := 0, usec := 0 } (by decide)
